import Mathlib

/-!
Shallow embedding of the OLED display subsystem of the board-support
package in `src/main.ts` (Kitronik air-quality board style driver).

Modelling conventions:
* MakeCode `Buffer` (`screenBuf`, 1025 bytes) is a function `ℕ → ℕ`;
  reads outside `[0, 1025)` return 0 and writes outside it are dropped,
  and a stored value is truncated to a byte, exactly as MakeCode buffers
  behave.  Indices are computed in `ℤ` as in the source.
* JavaScript numbers are embedded as `ℚ`; `Math.round` is
  `⌊q + 1/2⌋` (JS rounds halves towards +∞) and the float-to-integer
  conversion performed by the bitwise operators is truncation towards
  zero (`jsTrunc`).  All quantities reached by the claims are exactly
  representable, so exact rational arithmetic agrees with the doubles
  of the source there.
* The i2c bus is a log of writes `⟨address, bytes⟩`, in program order.
  The presence-probe result of `pins.i2cWriteBuffer` is an environment
  parameter `env : ℕ → ℤ` giving the ack value returned at each address.
* `basic.showString` (micro:bit LED error message) is outside the display
  subsystem and leaves the display state and the display bus untouched.
-/

namespace AirQuality

set_option maxRecDepth 16384

/-- JS float-to-integer truncation towards zero (`ToInt32` on the values
reached here, all of magnitude below 2^31). -/
def jsTrunc (q : ℚ) : ℤ := q.num.tdiv (q.den : ℤ)

/-- JS `Math.round`: round half towards +∞. -/
def jsRound (q : ℚ) : ℤ := ⌊q + 1/2⌋

/-- `pins.map` of MakeCode: linear interpolation. -/
def pinsMap (value fromLow fromHigh toLow toHigh : ℚ) : ℚ :=
  (value - fromLow) * (toHigh - toLow) / (fromHigh - fromLow) + toLow

/-- `let NUMBER_OF_CHAR_PER_LINE = 26` -/
def NUMBER_OF_CHAR_PER_LINE : ℕ := 26

/-- `let DISPLAY_ADDR_1 = 60` -/
def DISPLAY_ADDR_1 : ℕ := 60

/-- `let DISPLAY_ADDR_2 = 10` -/
def DISPLAY_ADDR_2 : ℕ := 10

/-- `let GRAPH_Y_MIN_LOCATION = 63` -/
def GRAPH_Y_MIN_LOCATION : ℕ := 63

/-- `let GRAPH_Y_MAX_LOCATION = 20` -/
def GRAPH_Y_MAX_LOCATION : ℕ := 20

/-- `clearBit(d, b)`: clear bit `b` of `d` (source lines 603-607). -/
def clearBit (d : ℕ) (b : ℕ) : ℕ :=
  if d &&& (1 <<< b) ≠ 0 then d - (1 <<< b) else d

/-- `setScreenAddr(selection)` (source lines 610-622); `none` models an
absent (`undefined`) argument, which falls into the `else` branch. -/
def setScreenAddr : Option ℕ → ℕ
  | some 1 => DISPLAY_ADDR_1
  | some 2 => DISPLAY_ADDR_2
  | _ => DISPLAY_ADDR_1

/-- Read a byte of a MakeCode `Buffer` of size 1025: out-of-range reads
return 0. -/
def bufGet (b : ℕ → ℕ) (i : ℤ) : ℕ :=
  if 0 ≤ i ∧ i < 1025 then b i.toNat else 0

/-- Write a byte of a MakeCode `Buffer` of size 1025: out-of-range writes
are dropped and stored values are truncated to a byte. -/
def bufSet (b : ℕ → ℕ) (i : ℤ) (v : ℕ) : ℕ → ℕ :=
  if 0 ≤ i ∧ i < 1025 then Function.update b i.toNat (v % 256) else b

/-- Process-wide mutable display state of the source module. -/
structure DState where
  displayAddress : ℕ
  initialised : ℕ
  screenBuf : ℕ → ℕ
  plotArray : List ℤ
  graphYMin : ℤ
  graphYMax : ℤ
  previousYPlot : ℚ

/-- One i2c transfer: target address and the raw bytes sent. -/
structure BusWrite where
  addr : ℕ
  bytes : List ℕ
deriving DecidableEq, Repr

/-- The bus traffic of one call, in program order. -/
abbrev Log := List BusWrite

/-- `writeOneByte(regValue)`: the 2-byte control write it performs. -/
def writeOneByteW (addr r : ℕ) : BusWrite := ⟨addr, [0, r]⟩

/-- `writeTwoByte(r1, r2)`: the 3-byte control write it performs. -/
def writeTwoByteW (addr r1 r2 : ℕ) : BusWrite := ⟨addr, [0, r1, r2]⟩

/-- `writeThreeByte(r1, r2, r3)`: the 4-byte control write it performs. -/
def writeThreeByteW (addr r1 r2 r3 : ℕ) : BusWrite := ⟨addr, [0, r1, r2, r3]⟩

/-- `set_pos(col, page)` (source lines 596-600): three one-byte command
writes selecting page and start column. -/
def set_posLog (addr col page : ℕ) : Log :=
  [writeOneByteW addr (0xb0 ||| page),
   writeOneByteW addr (0x00 ||| (col % 16)),
   writeOneByteW addr (0x10 ||| (col >>> 4))]

/-- The fixed SSD1306 configuration sequence issued by `initDisplay`
(source lines 639-657), addressed to `addr`. -/
def initSeqLog (addr : ℕ) : Log :=
  [writeOneByteW addr 0xAE,
   writeOneByteW addr 0xA4,
   writeTwoByteW addr 0xD5 0xF0,
   writeTwoByteW addr 0xA8 0x3F,
   writeTwoByteW addr 0xD3 0x00,
   writeOneByteW addr 0x00,
   writeTwoByteW addr 0x8D 0x14,
   writeTwoByteW addr 0x20 0x00,
   writeThreeByteW addr 0x21 0 127,
   writeThreeByteW addr 0x22 0 63,
   writeOneByteW addr 0xA1,
   writeOneByteW addr 0xC8,
   writeTwoByteW addr 0xDA 0x12,
   writeTwoByteW addr 0x81 0xCF,
   writeTwoByteW addr 0xD9 0xF1,
   writeTwoByteW addr 0xDB 0x40,
   writeOneByteW addr 0xA6,
   writeTwoByteW addr 0xD6 0,
   writeOneByteW addr 0xAF]

/-- The framebuffer content produced by `clear()`: all zero except the
leading data marker `0x40` at index 0. -/
def clearedBuf : ℕ → ℕ := fun i => if i = 0 then 0x40 else 0

/-- The 1025 bytes of the screen buffer, as sent by a full flush. -/
def bufBytes (b : ℕ → ℕ) : List ℕ := (List.range 1025).map b

/-- Body of `clear()` after the address update and the lazy-init check
(source lines 958-961): zero the buffer, re-set the marker, reposition
the cursor to the origin and flush the whole buffer. -/
def clearBody (s : DState) : DState × Log :=
  let s' := { s with screenBuf := clearedBuf }
  (s', set_posLog s.displayAddress 0 0 ++ [⟨s.displayAddress, bufBytes clearedBuf⟩])

/-- `initDisplay(screen?)` (source lines 628-661).  The trailing call to
`clear()` is inlined: at that point `initialised = 1`, so `clear`'s
lazy-init check does nothing, and `clear()` (called without a screen
argument) re-selects address 1 before flushing. -/
def initDisplay (env : ℕ → ℤ) (s0 : DState) (screen : Option ℕ) : DState × Log :=
  let s := { s0 with displayAddress := setScreenAddr screen }
  let probe : BusWrite := ⟨s.displayAddress, [0, 0xAF]⟩
  if env s.displayAddress = -1010 then
    -- "ERROR - no display" is shown on the micro:bit LEDs; no display state change
    (s, [probe])
  else
    let addr0 := s.displayAddress
    let s1 := { s with initialised := 1 }
    -- clear(): displayAddress := setScreenAddr(undefined); lazy init skipped
    let s2 := { s1 with displayAddress := setScreenAddr none }
    let c := clearBody s2
    (c.1, probe :: initSeqLog addr0 ++ c.2)

/-- The `if (initialised == 0) initDisplay(arg)` guard every public
operation performs. -/
def ensureInit (env : ℕ → ℤ) (s : DState) (arg : Option ℕ) : DState × Log :=
  if s.initialised = 0 then initDisplay env s arg else (s, [])

/-- `setPixel(x, y, screen?)` (source lines 676-691). -/
def setPixel (env : ℕ → ℤ) (s0 : DState) (x y : ℕ) (screen : Option ℕ) : DState × Log :=
  let sA := { s0 with displayAddress := setScreenAddr screen }
  let e := ensureInit env sA none
  let s := e.1
  let page := y >>> 3
  let shift_page := y % 8
  let ind : ℤ := (x : ℤ) + page * 128 + 1
  let screenPixel := bufGet s.screenBuf ind ||| (1 <<< shift_page)
  let s' := { s with screenBuf := bufSet s.screenBuf ind screenPixel }
  (s', e.2 ++ set_posLog s.displayAddress x page ++ [⟨s.displayAddress, [0x40, screenPixel]⟩])

/-- `clearPixel(x, y, screen?)` (source lines 706-721). -/
def clearPixel (env : ℕ → ℤ) (s0 : DState) (x y : ℕ) (screen : Option ℕ) : DState × Log :=
  let sA := { s0 with displayAddress := setScreenAddr screen }
  let e := ensureInit env sA (some 1)
  let s := e.1
  let page2 := y >>> 3
  let shift_page2 := y % 8
  let ind2 : ℤ := (x : ℤ) + page2 * 128 + 1
  let screenPixel2 := clearBit (bufGet s.screenBuf ind2) shift_page2
  let s' := { s with screenBuf := bufSet s.screenBuf ind2 screenPixel2 }
  (s', e.2 ++ set_posLog s.displayAddress x page2 ++ [⟨s.displayAddress, [0x40, screenPixel2]⟩])

/-- `clear(screen?)` (source lines 952-962). -/
def clear (env : ℕ → ℤ) (s0 : DState) (screen : Option ℕ) : DState × Log :=
  let sA := { s0 with displayAddress := setScreenAddr screen }
  let e := ensureInit env sA (some 1)
  let c := clearBody e.1
  (c.1, e.2 ++ c.2)

/-- `refresh(screen?)` (source lines 1103-1111). -/
def refresh (env : ℕ → ℤ) (s0 : DState) (screen : Option ℕ) : DState × Log :=
  let sA := { s0 with displayAddress := setScreenAddr screen }
  let e := ensureInit env sA (some 1)
  let s := e.1
  (s, e.2 ++ set_posLog s.displayAddress 0 0 ++ [⟨s.displayAddress, bufBytes s.screenBuf⟩])

/-- `invert(output, screen?)` (source lines 1121-1135). -/
def invert (env : ℕ → ℤ) (s0 : DState) (output : Bool) (screen : Option ℕ) : DState × Log :=
  let sA := { s0 with displayAddress := setScreenAddr screen }
  let e := ensureInit env sA (some 1)
  let s := e.1
  let invertRegisterValue := if output then 0xA7 else 0xA6
  (s, e.2 ++ [writeOneByteW s.displayAddress invertRegisterValue])

/-- `controlDisplayOnOff(displayOutput, screen?)` (source lines 975-987). -/
def controlDisplayOnOff (env : ℕ → ℤ) (s0 : DState) (displayOutput : Bool)
    (screen : Option ℕ) : DState × Log :=
  let sA := { s0 with displayAddress := setScreenAddr screen }
  let e := ensureInit env sA (some 1)
  let s := e.1
  (s, e.2 ++ [writeOneByteW s.displayAddress (if displayOutput then 0xAF else 0xAE)])

/-- `ShowAlign` enum (source lines 521-528). -/
inductive ShowAlign
  | Left
  | Centre
  | Right
deriving DecidableEq, Repr

/-- `LineDirectionSelection` enum (source lines 533-538). -/
inductive LineDirectionSelection
  | horizontal
  | vertical
deriving DecidableEq, Repr

/-- The `font` array (source lines 416-516): ASCII code to packed 5x5
glyph constant; codes 0-31 and 127 hold `0x0022d422`, codes at or above
128 are unset (reads of missing entries feed the bit operations as 0). -/
def font (c : ℕ) : ℕ :=
  match c with
  | 32 => 0x00000000
  | 33 => 0x000002e0
  | 34 => 0x00018060
  | 35 => 0x00afabea
  | 36 => 0x00aed6ea
  | 37 => 0x01991133
  | 38 => 0x010556aa
  | 39 => 0x00000060
  | 40 => 0x000045c0
  | 41 => 0x00003a20
  | 42 => 0x00051140
  | 43 => 0x00023880
  | 44 => 0x00002200
  | 45 => 0x00021080
  | 46 => 0x00000100
  | 47 => 0x00111110
  | 48 => 0x0007462e
  | 49 => 0x00087e40
  | 50 => 0x000956b9
  | 51 => 0x0005d629
  | 52 => 0x008fa54c
  | 53 => 0x009ad6b7
  | 54 => 0x008ada88
  | 55 => 0x00119531
  | 56 => 0x00aad6aa
  | 57 => 0x0022b6a2
  | 58 => 0x00000140
  | 59 => 0x00002a00
  | 60 => 0x0008a880
  | 61 => 0x00052940
  | 62 => 0x00022a20
  | 63 => 0x0022d422
  | 64 => 0x00e4d62e
  | 65 => 0x000f14be
  | 66 => 0x000556bf
  | 67 => 0x0008c62e
  | 68 => 0x0007463f
  | 69 => 0x0008d6bf
  | 70 => 0x000094bf
  | 71 => 0x00cac62e
  | 72 => 0x000f909f
  | 73 => 0x000047f1
  | 74 => 0x0017c629
  | 75 => 0x0008a89f
  | 76 => 0x0008421f
  | 77 => 0x01f1105f
  | 78 => 0x01f4105f
  | 79 => 0x0007462e
  | 80 => 0x000114bf
  | 81 => 0x000b6526
  | 82 => 0x010514bf
  | 83 => 0x0004d6b2
  | 84 => 0x0010fc21
  | 85 => 0x0007c20f
  | 86 => 0x00744107
  | 87 => 0x01f4111f
  | 88 => 0x000d909b
  | 89 => 0x00117041
  | 90 => 0x0008ceb9
  | 91 => 0x0008c7e0
  | 92 => 0x01041041
  | 93 => 0x000fc620
  | 94 => 0x00010440
  | 95 => 0x01084210
  | 96 => 0x00000820
  | 97 => 0x010f4a4c
  | 98 => 0x0004529f
  | 99 => 0x00094a4c
  | 100 => 0x000fd288
  | 101 => 0x000956ae
  | 102 => 0x000097c4
  | 103 => 0x0007d6a2
  | 104 => 0x000c109f
  | 105 => 0x000003a0
  | 106 => 0x0006c200
  | 107 => 0x0008289f
  | 108 => 0x000841e0
  | 109 => 0x01e1105e
  | 110 => 0x000e085e
  | 111 => 0x00064a4c
  | 112 => 0x0002295e
  | 113 => 0x000f2944
  | 114 => 0x0001085c
  | 115 => 0x00012a90
  | 116 => 0x010a51e0
  | 117 => 0x010f420e
  | 118 => 0x00644106
  | 119 => 0x01e8221e
  | 120 => 0x00093192
  | 121 => 0x00222292
  | 122 => 0x00095b52
  | 123 => 0x0008fc80
  | 124 => 0x000003e0
  | 125 => 0x000013f1
  | 126 => 0x00841080
  | 127 => 0x0022d422
  | _ => if c < 32 then 0x0022d422 else 0

/-- The inner `for (let l = 0; l < 5; l++)` loop of the glyph raster
(source lines 832-836): build output column byte `k` of a glyph. -/
def glyphCol (g k : ℕ) : ℕ :=
  (List.range 5).foldl
    (fun col l => if g &&& (1 <<< (5 * k + l)) ≠ 0 then col ||| (1 <<< (l + 1)) else col) 0

/-- State of the word-wrap scan of `show` (source lines 763-768).
`saveString` is omitted: it is dead after each push. -/
structure WrapState where
  arr : List (List Char)
  previousSpacePoint : ℕ
  spacePoint : ℕ
  startOfString : ℕ

/-- `substr(start, len)` on a character list: `len` characters starting
at `start`, clamped to the string (the second argument of MakeCode
`substr` is a LENGTH, not an end position). -/
def jsSubstr (cs : List Char) (start len : ℕ) : List Char :=
  (cs.drop start).take len

/-- One iteration of the `spaceFinder` scan of `show` (source lines
776-801).  `charAt` past the end returns an empty string, which is not a
space, so the default character of `getD` merely skips that iteration. -/
def wrapStep (cs : List Char) (w : WrapState) (spaceFinder : ℕ) : WrapState :=
  if cs.getD spaceFinder 'x' = ' ' then
    let spacePoint := spaceFinder
    if spacePoint - w.startOfString < NUMBER_OF_CHAR_PER_LINE then
      if spaceFinder = cs.length - 1 then
        { arr := w.arr ++ [jsSubstr cs w.startOfString spacePoint],
          previousSpacePoint := spacePoint, spacePoint := spacePoint,
          startOfString := w.startOfString }
      else
        { w with previousSpacePoint := spacePoint, spacePoint := spacePoint }
    else if spacePoint - w.startOfString > NUMBER_OF_CHAR_PER_LINE then
      { arr := w.arr ++ [jsSubstr cs w.startOfString w.previousSpacePoint],
        previousSpacePoint := w.previousSpacePoint, spacePoint := spacePoint,
        startOfString := w.previousSpacePoint + 1 }
    else
      { arr := w.arr ++ [jsSubstr cs w.startOfString spacePoint],
        previousSpacePoint := spacePoint, spacePoint := spacePoint,
        startOfString := spacePoint + 1 }
  else w

/-- The line-splitting phase of `show` (source lines 762-807), applied to
the space-appended input string, for target row `y`. -/
def showLines (inputString : List Char) (y : ℕ) : List (List Char) :=
  if inputString.length > NUMBER_OF_CHAR_PER_LINE then
    if y = 7 then
      [jsSubstr inputString 0 (NUMBER_OF_CHAR_PER_LINE - 1)]
    else
      ((List.range (inputString.length + 1)).foldl (wrapStep inputString)
        ⟨[], 0, 0, 0⟩).arr
  else [inputString]

/-- The per-line mutable state of the rendering loop of `show`:
framebuffer, alignment column `x`, current row `y`, last written buffer
index `ind` and the bus log so far.  `x` and `ind` persist across lines,
as the source declares them outside the loop. -/
structure RenderSt where
  buf : ℕ → ℕ
  x : ℕ
  y : ℕ
  ind : ℕ
  log : Log

/-- Resolve the optional alignment argument: `!displayShowAlign` is true
for `undefined` and for `Left` (enum value 0), and both paths end at
`Left`. -/
def resolveAlign : Option ShowAlign → ShowAlign
  | none => ShowAlign.Left
  | some a => a

/-- Resolve the optional line argument: `!line` is true for `undefined`
and for 0, giving row 0; otherwise the row is `line - 1`. -/
def resolveLine : Option ℕ → ℕ
  | none => 0
  | some 0 => 0
  | some n => n - 1

/-- The `charOfString`/`k` glyph-raster loops of `show` (source lines
829-841): for each character of the line, build its five column bytes
and store them into the framebuffer; the pair carries the buffer and the
last written index `ind`. -/
def renderChars (displayString : List Char) (x y : ℕ) (bi0 : (ℕ → ℕ) × ℕ) :
    (ℕ → ℕ) × ℕ :=
  (List.range displayString.length).foldl
    (fun (bi : (ℕ → ℕ) × ℕ) charOfString =>
      let charDisplayBytes := font (displayString.getD charOfString 'x').toNat
      (List.range 5).foldl
        (fun (bi : (ℕ → ℕ) × ℕ) k =>
          let col := glyphCol charDisplayBytes k
          let ind := (x + charOfString) * 5 + y * 128 + k + 1
          (bufSet bi.1 (ind : ℤ) col, ind))
        bi)
    bi0

/-- One iteration of the `textLine` rendering loop of `show` (source
lines 814-848): choose the start column (only when the space-appended
input is shorter than 25 characters), rasterise the glyphs into the
framebuffer, and send one bulk write of `screenBuf.slice(ind02, ind+1)`
whose first byte is replaced by the `0x40` data marker.  MakeCode
`Buffer.slice` takes a LENGTH as second argument, clamped to the
buffer. -/
def renderLine (inputLen : ℕ) (align : ShowAlign) (addr : ℕ) (textLine : ℕ)
    (r : RenderSt) (displayString : List Char) : RenderSt :=
  let x :=
    if inputLen < NUMBER_OF_CHAR_PER_LINE - 1 then
      match align with
      | ShowAlign.Left => 0
      | ShowAlign.Centre =>
          (jsRound ((NUMBER_OF_CHAR_PER_LINE - (displayString.length : ℚ)) / 2)).toNat
      | ShowAlign.Right =>
          NUMBER_OF_CHAR_PER_LINE - displayString.length - 1 + textLine
    else r.x
  let bi := renderChars displayString x r.y (r.buf, r.ind)
  let ind02 := x * 5 + r.y * 128
  let sliceLen := min (bi.2 + 1) (1025 - ind02)
  let payload :=
    (List.range sliceLen).map
      (fun (j : ℕ) => if j = 0 then 0x40 else bufGet bi.1 ((ind02 + j : ℕ) : ℤ))
  { buf := bi.1, x := x, y := r.y + 1, ind := bi.2,
    log := r.log ++ set_posLog addr (x * 5) r.y ++ [⟨addr, payload⟩] }

/-- `show(inputData, line?, displayShowAlign?, screen?)` (source lines
738-849), for an input already converted to text.  The one trailing
space is appended before anything else. -/
def «show» (env : ℕ → ℤ) (s0 : DState) (input : List Char) (line : Option ℕ)
    (align : Option ShowAlign) (screen : Option ℕ) : DState × Log :=
  let inputString := input ++ [' ']
  let sA := { s0 with displayAddress := setScreenAddr screen }
  let e := ensureInit env sA (some 1)
  let s := e.1
  let displayShowAlign := resolveAlign align
  let y := resolveLine line
  let lines := showLines inputString y
  let r :=
    lines.enum.foldl
      (fun r p => renderLine inputString.length displayShowAlign s.displayAddress p.1 r p.2)
      ⟨s.screenBuf, 0, y, 0, []⟩
  ({ s with screenBuf := r.buf }, e.2 ++ r.log)

/-- `clearLine(line, screen?)` (source lines 863-879): after its own
address update and lazy init, it renders 26 spaces via `show` (which,
receiving no screen argument, re-selects address 1). -/
def clearLine (env : ℕ → ℤ) (s0 : DState) (line : ℕ) (screen : Option ℕ) : DState × Log :=
  let sA := { s0 with displayAddress := setScreenAddr screen }
  let e := ensureInit env sA (some 1)
  let sh := «show» env e.1 (List.replicate 26 ' ') (some line) none none
  (sh.1, e.2 ++ sh.2)

/-- `drawLine(lineDirection, len, x, y, screen?)` (source lines 897-909):
a loop of `setPixel` calls; vertical length is clamped to 63. -/
def drawLine (env : ℕ → ℤ) (s : DState) (dir : LineDirectionSelection)
    (len x y : ℕ) (screen : Option ℕ) : DState × Log :=
  match dir with
  | LineDirectionSelection.horizontal =>
      (List.range' x len).foldl
        (fun sl hPixel =>
          let p := setPixel env sl.1 hPixel y screen
          (p.1, sl.2 ++ p.2))
        (s, [])
  | LineDirectionSelection.vertical =>
      let len := if len ≥ 64 then 63 else len
      (List.range' y len).foldl
        (fun sl vPixel =>
          let p := setPixel env sl.1 x vPixel screen
          (p.1, sl.2 ++ p.2))
        (s, [])

/-- `drawRect(width, height, x, y, screen?)` (source lines 928-942).
The `if (!x) x = 0` normalisations are identities on naturals. -/
def drawRect (env : ℕ → ℤ) (s : DState) (width height x y : ℕ)
    (screen : Option ℕ) : DState × Log :=
  let l1 := drawLine env s LineDirectionSelection.horizontal width x y screen
  let l2 := drawLine env l1.1 LineDirectionSelection.horizontal width x (y + height - 1) screen
  let l3 := drawLine env l2.1 LineDirectionSelection.vertical height x y screen
  let l4 := drawLine env l3.1 LineDirectionSelection.vertical height (x + width - 1) y screen
  (l4.1, l1.2 ++ l2.2 ++ l3.2 ++ l4.2)

/-- The `y3`/`len` selection of the plot loop (source lines 1052-1063):
vertical segments are drawn downwards only. -/
def plotSeg (yPlot previousYPlot : ℚ) : ℚ × ℚ :=
  if yPlot < previousYPlot then (yPlot, previousYPlot - yPlot)
  else if previousYPlot < yPlot then (previousYPlot, yPlot - previousYPlot)
  else (yPlot, 1)

/-- The column-clearing loop of `plot` (source lines 1066-1073): clear
every pixel of column `x3` in the graph band `[20, 63]`. -/
def plotColumnClear (buf : ℕ → ℕ) (x3 : ℕ) : ℕ → ℕ :=
  (List.range' GRAPH_Y_MAX_LOCATION (GRAPH_Y_MIN_LOCATION - GRAPH_Y_MAX_LOCATION + 1)).foldl
    (fun b pixel =>
      let page3 := pixel >>> 3
      let shift_page3 := pixel % 8
      let ind5 : ℤ := (x3 : ℤ) + page3 * 128 + 1
      bufSet b ind5 (clearBit (bufGet b ind5) shift_page3))
    buf

/-- The column-drawing loop of `plot` (source lines 1076-1082):
`for (pixel = y3; pixel < y3 + len; pixel++)` performs `⌈len⌉` steps;
the float loop variable feeds the bitwise operators through truncation
(`jsTrunc`, with `>> 3` flooring the resulting int32 and the shift count
being the residue mod 8, which is exact for the non-negative rows
reached from any consistent graph state). -/
def plotColumnSet (buf : ℕ → ℕ) (x3 : ℕ) (y3 len : ℚ) : ℕ → ℕ :=
  (List.range (Int.toNat ⌈len⌉)).foldl
    (fun b (k : ℕ) =>
      let pixel : ℚ := y3 + (k : ℚ)
      let p : ℤ := jsTrunc pixel
      let page3 : ℤ := Int.fdiv p 8
      let shift_page4 : ℕ := (Int.emod p 8).toNat
      let ind6 : ℤ := (x3 : ℤ) + page3 * 128 + 1
      bufSet b ind6 (bufGet b ind6 ||| (1 <<< shift_page4)))
    buf

/-- One iteration of the `arrayPosition` loop of `plot` (source lines
1039-1084), acting on the pair (framebuffer, previousYPlot).  When the
position is past the array (the extra iteration run on a full buffer),
the out-of-range read is `undefined`: the mapped value is NaN, the
column is still cleared, the segment loop runs zero iterations, and the
NaN stored into `previousYPlot` is dead (index 0 of the next call
overwrites it before any read), so the model keeps the old value. -/
def plotLoopStep (gMin gMax : ℤ) (arr : List ℤ) (st : (ℕ → ℕ) × ℚ)
    (arrayPosition : ℕ) : (ℕ → ℕ) × ℚ :=
  match arr.get? arrayPosition with
  | some v =>
      let x3 := arrayPosition
      let yPlot := pinsMap (v : ℚ) (gMin : ℚ) (gMax : ℚ)
        (GRAPH_Y_MIN_LOCATION : ℚ) (GRAPH_Y_MAX_LOCATION : ℚ)
      let prev := if arrayPosition = 0 then yPlot else st.2
      let seg := plotSeg yPlot prev
      let buf := plotColumnClear st.1 x3
      let buf := plotColumnSet buf x3 seg.1 seg.2
      (buf, yPlot)
  | none => (plotColumnClear st.1 arrayPosition, st.2)

/-- `plot(plotVariable, screen?)` (source lines 1017-1086): FIFO window
of capacity 127, auto-expanding bounds, full redraw of all columns, then
`refresh()` (which, called without an argument, re-selects address 1). -/
def plot (env : ℕ → ℤ) (s0 : DState) (plotVariable : ℚ)
    (screen : Option ℕ) : DState × Log :=
  let sA := { s0 with displayAddress := setScreenAddr screen }
  let e := ensureInit env sA (some 1)
  let s := e.1
  let plotLength := s.plotArray.length
  let arr0 := if plotLength = 127 then s.plotArray.tail else s.plotArray
  let v := jsRound plotVariable
  let arr := arr0 ++ [v]
  let gMax := if v > s.graphYMax then v else s.graphYMax
  let gMin := if v < s.graphYMin then v else s.graphYMin
  let bp :=
    (List.range (plotLength + 1)).foldl (plotLoopStep gMin gMax arr)
      (s.screenBuf, s.previousYPlot)
  let s' := { s with
    plotArray := arr
    graphYMin := gMin
    graphYMax := gMax
    screenBuf := bp.1
    previousYPlot := bp.2 }
  let rf := refresh env s' none
  (rf.1, e.2 ++ rf.2)

/-- The public display surface, as one datatype of calls. -/
inductive DispOp
  | initDisp (screen : Option ℕ)
  | setPix (x y : ℕ) (screen : Option ℕ)
  | clearPix (x y : ℕ) (screen : Option ℕ)
  | showOp (input : List Char) (line : Option ℕ) (align : Option ShowAlign) (screen : Option ℕ)
  | clearLineOp (line : ℕ) (screen : Option ℕ)
  | drawLineOp (dir : LineDirectionSelection) (len x y : ℕ) (screen : Option ℕ)
  | drawRectOp (w h x y : ℕ) (screen : Option ℕ)
  | clearOp (screen : Option ℕ)
  | plotOp (v : ℚ) (screen : Option ℕ)
  | refreshOp (screen : Option ℕ)
  | invertOp (b : Bool) (screen : Option ℕ)
  | onOffOp (b : Bool) (screen : Option ℕ)

/-- Run one public display call. -/
def runOp (env : ℕ → ℤ) (s : DState) : DispOp → DState × Log
  | DispOp.initDisp screen => initDisplay env s screen
  | DispOp.setPix x y screen => setPixel env s x y screen
  | DispOp.clearPix x y screen => clearPixel env s x y screen
  | DispOp.showOp input line align screen => «show» env s input line align screen
  | DispOp.clearLineOp line screen => clearLine env s line screen
  | DispOp.drawLineOp dir len x y screen => drawLine env s dir len x y screen
  | DispOp.drawRectOp w h x y screen => drawRect env s w h x y screen
  | DispOp.clearOp screen => clear env s screen
  | DispOp.plotOp v screen => plot env s v screen
  | DispOp.refreshOp screen => refresh env s screen
  | DispOp.invertOp b screen => invert env s b screen
  | DispOp.onOffOp b screen => controlDisplayOnOff env s b screen

/-- Whether a call is an explicit `initDisplay` request. -/
def DispOp.isExplicitInit : DispOp → Bool
  | DispOp.initDisp _ => true
  | _ => false

/-- Pixel `(x, y)` of a framebuffer: bit `y % 8` of the byte at index
`x + (y >> 3) * 128 + 1`, the layout used by every drawing primitive. -/
def getPixel (b : ℕ → ℕ) (x y : ℕ) : Bool :=
  (b (x + (y >>> 3) * 128 + 1)).testBit (y % 8)

/-- Integer form of the column-drawing loop of `plot`: identical to
`plotColumnSet` when the segment start and length are integral (the
truncations become identities); used to reason about and evaluate the
loop. -/
def plotColumnSetInt (buf : ℕ → ℕ) (x3 : ℕ) (p0 : ℤ) (cnt : ℕ) : ℕ → ℕ :=
  (List.range cnt).foldl
    (fun b (k : ℕ) =>
      let p : ℤ := p0 + (k : ℤ)
      let page3 : ℤ := Int.fdiv p 8
      let shift_page4 : ℕ := (Int.emod p 8).toNat
      let ind6 : ℤ := (x3 : ℤ) + page3 * 128 + 1
      bufSet b ind6 (bufGet b ind6 ||| (1 <<< shift_page4)))
    buf

/-- A sequence of `plot` calls (no screen argument), returning the final
state. -/
def plotMany (env : ℕ → ℤ) (s : DState) (vs : List ℚ) : DState :=
  vs.foldl (fun s v => (plot env s v none).1) s

/-- The graph-scale invariant: every recorded sample lies between the
current bounds. -/
def plotInv (s : DState) : Prop :=
  ∀ w ∈ s.plotArray, s.graphYMin ≤ w ∧ w ≤ s.graphYMax

/-- The start column (in character cells) promised by the specification
for a line of length `len` at wrapped-line index `textLine`. -/
def alignFormula (al : ShowAlign) (len textLine : ℕ) : ℕ :=
  match al with
  | ShowAlign.Left => 0
  | ShowAlign.Centre => (jsRound ((NUMBER_OF_CHAR_PER_LINE - (len : ℚ)) / 2)).toNat
  | ShowAlign.Right => NUMBER_OF_CHAR_PER_LINE - len - 1 + textLine

/-- Number of bulk data writes (payload headed by the `0x40` marker) in
a bus log. -/
def dataWriteCount (log : Log) : ℕ :=
  (log.filter fun w => w.bytes.head? = some 0x40).length

/-- A write that is either a single-byte command frame or a bulk data
frame; the multi-byte command frames of the init sequence are neither. -/
def cmdOrData (w : BusWrite) : Prop :=
  (∃ b, w.bytes = [0, b]) ∨ w.bytes.head? = some 0x40 ∨ w.bytes = []

/-- The write shapes produced by the drawing operations: single-byte
command frames, bulk data frames led by `0x40`, empty frames, or the
full 1025-byte flush.  The three-byte command frames of the init
sequence (such as the charge-pump enable `[0, 0x8D, 0x14]`) have none of
these shapes. -/
def benign (w : BusWrite) : Prop :=
  (∃ b, w.bytes = [0, b]) ∨ w.bytes.head? = some 0x40 ∨ w.bytes = [] ∨
    w.bytes.length = 1025

/-- An environment in which both controllers acknowledge the probe. -/
def envOk : ℕ → ℤ := fun _ => 0

/-- An already-initialised display showing a cleared screen, with the
initial graph state. -/
def stInit : DState := ⟨60, 1, clearedBuf, [], 0, 100, 0⟩

/-- An already-initialised display whose framebuffer bytes all have bit
0 set (every pixel row 0 mod 8 lit). -/
def stOnes : DState := ⟨60, 1, fun _ => 1, [], 0, 100, 0⟩

/-- A 60-character text whose words are all at most 26 characters wide. -/
def failText : List Char :=
  "THE QUICK BROWN FOX JUMPS OVER THE LAZY DOG AND RUNS HOME AB".toList

lemma ensureInit_initialised (env : ℕ → ℤ) {s : DState} (a : Option ℕ)
    (h : s.initialised = 1) : ensureInit env s a = (s, []) := by
  simp [ensureInit, h]

lemma foldl_inv {α β : Type _} (f : β → α → β) (P : β → Prop) :
    ∀ (l : List α) (b : β), P b → (∀ b' a, a ∈ l → P b' → P (f b' a)) →
      P (l.foldl f b) := by
  intro l
  induction l with
  | nil => intro b hb _; exact hb
  | cons a l ih =>
      intro b hb hstep
      exact ih _ (hstep b a (by simp) hb) (fun b' a' ha' => hstep b' a' (by simp [ha']))

lemma bufGet_in (b : ℕ → ℕ) {i : ℤ} (h0 : 0 ≤ i) (h1 : i < 1025) :
    bufGet b i = b i.toNat := by
  simp [bufGet, h0, h1]

lemma bufSet_apply_same (b : ℕ → ℕ) {i : ℤ} (v : ℕ) (h0 : 0 ≤ i) (h1 : i < 1025) :
    bufSet b i v i.toNat = v % 256 := by
  simp [bufSet, h0, h1]

lemma bufSet_apply_ne (b : ℕ → ℕ) {i : ℤ} (v : ℕ) {j : ℕ} (hj : (j : ℤ) ≠ i) :
    bufSet b i v j = b j := by
  unfold bufSet
  split
  next h =>
    have : j ≠ i.toNat := by omega
    exact Function.update_noteq this _ b
  next h => rfl

lemma initDisplay_plotArray (env : ℕ → ℤ) (s : DState) (scr : Option ℕ) :
    (initDisplay env s scr).1.plotArray = s.plotArray := by
  unfold initDisplay clearBody
  dsimp only
  split <;> rfl

lemma initDisplay_graphYMin (env : ℕ → ℤ) (s : DState) (scr : Option ℕ) :
    (initDisplay env s scr).1.graphYMin = s.graphYMin := by
  unfold initDisplay clearBody
  dsimp only
  split <;> rfl

lemma initDisplay_graphYMax (env : ℕ → ℤ) (s : DState) (scr : Option ℕ) :
    (initDisplay env s scr).1.graphYMax = s.graphYMax := by
  unfold initDisplay clearBody
  dsimp only
  split <;> rfl

lemma ensureInit_plotArray (env : ℕ → ℤ) (s : DState) (a : Option ℕ) :
    (ensureInit env s a).1.plotArray = s.plotArray := by
  unfold ensureInit
  split
  · exact initDisplay_plotArray env s a
  · rfl

lemma ensureInit_graphYMin (env : ℕ → ℤ) (s : DState) (a : Option ℕ) :
    (ensureInit env s a).1.graphYMin = s.graphYMin := by
  unfold ensureInit
  split
  · exact initDisplay_graphYMin env s a
  · rfl

lemma ensureInit_graphYMax (env : ℕ → ℤ) (s : DState) (a : Option ℕ) :
    (ensureInit env s a).1.graphYMax = s.graphYMax := by
  unfold ensureInit
  split
  · exact initDisplay_graphYMax env s a
  · rfl

lemma refresh_plotArray (env : ℕ → ℤ) (s : DState) (scr : Option ℕ) :
    (refresh env s scr).1.plotArray = s.plotArray := by
  unfold refresh
  exact ensureInit_plotArray env _ _

lemma refresh_graphYMin (env : ℕ → ℤ) (s : DState) (scr : Option ℕ) :
    (refresh env s scr).1.graphYMin = s.graphYMin := by
  unfold refresh
  exact ensureInit_graphYMin env _ _

lemma refresh_graphYMax (env : ℕ → ℤ) (s : DState) (scr : Option ℕ) :
    (refresh env s scr).1.graphYMax = s.graphYMax := by
  unfold refresh
  exact ensureInit_graphYMax env _ _

lemma plot_plotArray (env : ℕ → ℤ) (s : DState) (v : ℚ) (scr : Option ℕ) :
    (plot env s v scr).1.plotArray =
      (if s.plotArray.length = 127 then s.plotArray.tail else s.plotArray)
        ++ [jsRound v] := by
  unfold plot
  rw [refresh_plotArray]
  simp only [ensureInit_plotArray]

lemma plot_graphYMin (env : ℕ → ℤ) (s : DState) (v : ℚ) (scr : Option ℕ) :
    (plot env s v scr).1.graphYMin =
      if jsRound v < s.graphYMin then jsRound v else s.graphYMin := by
  unfold plot
  rw [refresh_graphYMin]
  simp only [ensureInit_graphYMin]

lemma plot_graphYMax (env : ℕ → ℤ) (s : DState) (v : ℚ) (scr : Option ℕ) :
    (plot env s v scr).1.graphYMax =
      if jsRound v > s.graphYMax then jsRound v else s.graphYMax := by
  unfold plot
  rw [refresh_graphYMax]
  simp only [ensureInit_graphYMax]

lemma plotMany_array (env : ℕ → ℤ) (vs : List ℚ) :
    ∀ (done : List ℤ) (s : DState),
      s.plotArray = done.drop (done.length - 127) →
      (plotMany env s vs).plotArray =
        (done ++ vs.map jsRound).drop ((done ++ vs.map jsRound).length - 127) := by
  induction vs with
  | nil => intro done s h; simpa [plotMany] using h
  | cons v vs ih =>
      intro done s h
      have hstep : (plot env s v none).1.plotArray =
          (done ++ [jsRound v]).drop ((done ++ [jsRound v]).length - 127) := by
        rw [plot_plotArray, h, List.length_drop]
        by_cases hN : 127 ≤ done.length
        · have hc : done.length - (done.length - 127) = 127 := by omega
          rw [hc, if_pos rfl, List.tail_drop]
          have h2 : (done ++ [jsRound v]).length - 127 = (done.length - 127) + 1 := by
            rw [List.length_append]
            simp only [List.length_singleton]
            omega
          rw [h2, List.drop_append_of_le_length (by omega)]
        · have hc : done.length - (done.length - 127) = done.length := by omega
          have hz : done.length - 127 = 0 := by omega
          rw [hc, hz, List.drop_zero, if_neg (by omega)]
          have h2 : (done ++ [jsRound v]).length - 127 = 0 := by
            rw [List.length_append]
            simp only [List.length_singleton]
            omega
          rw [h2, List.drop_zero]
      have := ih (done ++ [jsRound v]) (plot env s v none).1 hstep
      simpa [plotMany, List.append_assoc] using this

/-- Claim C2: the sample buffer is a FIFO sliding window of capacity 127:
starting from an empty buffer, 130 `plot` calls leave exactly 127 samples,
namely the rounded values of calls 4 to 130 in order; when the buffer
already holds 127 entries a call drops the oldest entry before appending
the new rounded sample, and the length never exceeds 127. -/
theorem plot_sliding_window (env : ℕ → ℤ) (s0 s s1 : DState) (vs : List ℚ)
    (v : ℚ) (scr : Option ℕ) (h0 : s0.plotArray = []) (h130 : vs.length = 130)
    (hfull : s.plotArray.length = 127) (hle : s1.plotArray.length ≤ 127) :
    (plotMany env s0 vs).plotArray = (vs.map jsRound).drop 3 ∧
      (plotMany env s0 vs).plotArray.length = 127 ∧
      (plot env s v scr).1.plotArray = s.plotArray.tail ++ [jsRound v] ∧
      (plot env s1 v scr).1.plotArray.length ≤ 127 := by
  have hmain := plotMany_array env vs [] s0 (by simpa using h0)
  rw [List.nil_append, List.length_map, h130] at hmain
  norm_num at hmain
  refine ⟨hmain, ?_, ?_, ?_⟩
  · rw [hmain, List.length_drop, List.length_map, h130]
  · rw [plot_plotArray, if_pos hfull]
  · rw [plot_plotArray]
    by_cases hf : s1.plotArray.length = 127
    · rw [if_pos hf, List.length_append, List.length_tail]
      simp only [List.length_singleton]
      omega
    · rw [if_neg hf, List.length_append]
      simp only [List.length_singleton]
      omega

/-- Witness for `plot_sliding_window`: 130 zero samples from the initial
state, and single steps from states holding 127 and 0 samples. -/
theorem plot_sliding_window_witness :
    stInit.plotArray = [] ∧ (List.replicate 130 (0 : ℚ)).length = 130 ∧
      (plotMany envOk stInit (List.replicate 130 0)).plotArray =
        ((List.replicate 130 (0 : ℚ)).map jsRound).drop 3 := by
  have h := plot_sliding_window envOk stInit
    { stInit with plotArray := List.replicate 127 0 } stInit
    (List.replicate 130 0) 0 none rfl (by simp) (by rfl) (by simp [stInit])
  exact ⟨rfl, by simp, h.1⟩

lemma plot_inv_step (env : ℕ → ℤ) (s : DState) (v : ℚ) (scr : Option ℕ)
    (h : plotInv s) : plotInv (plot env s v scr).1 := by
  intro w hw
  rw [plot_plotArray] at hw
  rw [plot_graphYMin, plot_graphYMax]
  rcases List.mem_append.mp hw with hmem | hmem
  · have hold : w ∈ s.plotArray := by
      by_cases hf : s.plotArray.length = 127
      · rw [if_pos hf] at hmem
        exact List.tail_subset _ hmem
      · rwa [if_neg hf] at hmem
    have := h w hold
    constructor
    · split <;> omega
    · split <;> omega
  · have hw' : w = jsRound v := by simpa using hmem
    subst hw'
    constructor
    · split <;> omega
    · split <;> omega

lemma jsTrunc_nonneg {q : ℚ} (h : 0 ≤ q) : jsTrunc q = ⌊q⌋ := by
  unfold jsTrunc
  rw [Int.tdiv_eq_ediv (Rat.num_nonneg.mpr h) (by positivity), Rat.floor_def]

lemma yPlot_band {gMin gMax w : ℤ} (hlt : gMin < gMax) (h1 : gMin ≤ w) (h2 : w ≤ gMax) :
    20 ≤ pinsMap (w : ℚ) (gMin : ℚ) (gMax : ℚ)
        (GRAPH_Y_MIN_LOCATION : ℚ) (GRAPH_Y_MAX_LOCATION : ℚ) ∧
      pinsMap (w : ℚ) (gMin : ℚ) (gMax : ℚ)
        (GRAPH_Y_MIN_LOCATION : ℚ) (GRAPH_Y_MAX_LOCATION : ℚ) ≤ 63 := by
  unfold pinsMap GRAPH_Y_MIN_LOCATION GRAPH_Y_MAX_LOCATION
  push_cast
  have hd : (0 : ℚ) < (gMax : ℚ) - gMin := by
    have : (gMin : ℚ) < gMax := by exact_mod_cast hlt
    linarith
  have h1' : (0 : ℚ) ≤ (w : ℚ) - gMin := by
    have : (gMin : ℚ) ≤ w := by exact_mod_cast h1
    linarith
  have h2' : (w : ℚ) - gMin ≤ (gMax : ℚ) - gMin := by
    have : (w : ℚ) ≤ gMax := by exact_mod_cast h2
    linarith
  have key : ((w : ℚ) - gMin) * ((20 : ℚ) - 63) / ((gMax : ℚ) - gMin) + 63
      = 63 - 43 * (((w : ℚ) - gMin) / ((gMax : ℚ) - gMin)) := by
    ring
  have ht0 : 0 ≤ ((w : ℚ) - gMin) / ((gMax : ℚ) - gMin) := div_nonneg h1' hd.le
  have ht1 : ((w : ℚ) - gMin) / ((gMax : ℚ) - gMin) ≤ 1 := by
    rw [div_le_one hd]
    exact h2'
  rw [key]
  constructor <;> linarith

lemma plotSeg_bounds {a b : ℚ} (ha1 : 20 ≤ a) (ha2 : a ≤ 63) (hb1 : 20 ≤ b)
    (hb2 : b ≤ 63) :
    20 ≤ (plotSeg a b).1 ∧ (plotSeg a b).1 + (plotSeg a b).2 ≤ 64 := by
  unfold plotSeg
  split_ifs <;> constructor <;> dsimp only <;> linarith

lemma plotColumnClear_low (buf : ℕ → ℕ) (x3 : ℕ) :
    ∀ i ≤ 256, plotColumnClear buf x3 i = buf i := by
  intro i hi
  unfold plotColumnClear
  refine foldl_inv _ (fun b => b i = buf i)
    (List.range' GRAPH_Y_MAX_LOCATION (GRAPH_Y_MIN_LOCATION - GRAPH_Y_MAX_LOCATION + 1))
    buf rfl ?_
  intro b pixel hpix hb
  dsimp only
  have hpr : 20 ≤ pixel ∧ pixel < 64 := by
    simp only [List.mem_range'_1, GRAPH_Y_MAX_LOCATION, GRAPH_Y_MIN_LOCATION] at hpix
    omega
  have hpage : 2 ≤ pixel >>> 3 ∧ pixel >>> 3 ≤ 7 := by
    rw [Nat.shiftRight_eq_div_pow]
    norm_num
    omega
  rw [bufSet_apply_ne _ _ (by omega), hb]

lemma plotColumnSet_low (buf : ℕ → ℕ) (x3 : ℕ) (y3 len : ℚ) (h20 : 20 ≤ y3)
    (h64 : y3 + len ≤ 64) :
    ∀ i ≤ 256, plotColumnSet buf x3 y3 len i = buf i := by
  intro i hi
  unfold plotColumnSet
  refine foldl_inv _ (fun b => b i = buf i) (List.range (Int.toNat ⌈len⌉)) buf rfl ?_
  intro b k hk hb
  dsimp only
  rw [List.mem_range] at hk
  have hkZ : (k : ℤ) < ⌈len⌉ := Int.lt_toNat.mp hk
  have hklen : (k : ℚ) < len := by
    have h1 : ((k : ℤ) : ℚ) ≤ (⌈len⌉ : ℚ) - 1 := by
      have : (k : ℤ) ≤ ⌈len⌉ - 1 := by omega
      exact_mod_cast this
    have h2 : (⌈len⌉ : ℚ) < len + 1 := Int.ceil_lt_add_one len
    push_cast at h1
    linarith
  have hk0 : (0 : ℚ) ≤ (k : ℚ) := by positivity
  have hp1 : (20 : ℚ) ≤ y3 + (k : ℚ) := by linarith
  have hp2 : y3 + (k : ℚ) < 64 := by linarith
  have hpos : (0 : ℚ) ≤ y3 + (k : ℚ) := by linarith
  have htr : jsTrunc (y3 + (k : ℚ)) = ⌊y3 + (k : ℚ)⌋ := jsTrunc_nonneg hpos
  have hfl1 : (20 : ℤ) ≤ ⌊y3 + (k : ℚ)⌋ := by
    rw [Int.le_floor]
    exact_mod_cast hp1
  have hfl2 : ⌊y3 + (k : ℚ)⌋ ≤ 63 := by
    have : ⌊y3 + (k : ℚ)⌋ < 64 := by
      rw [Int.floor_lt]
      exact_mod_cast hp2
    omega
  have hfd : Int.fdiv (jsTrunc (y3 + (k : ℚ))) 8 = ⌊y3 + (k : ℚ)⌋ / 8 := by
    rw [htr, Int.fdiv_eq_ediv _ (by norm_num)]
  rw [hfd]
  rw [bufSet_apply_ne _ _ (by omega), hb]

lemma plotLoopStep_low {gMin gMax : ℤ} {arr : List ℤ} (hlt : gMin < gMax)
    (hmem : ∀ w ∈ arr, gMin ≤ w ∧ w ≤ gMax) (st : (ℕ → ℕ) × ℚ) (pos : ℕ)
    (hprev : pos = 0 ∨ (20 ≤ st.2 ∧ st.2 ≤ 63)) :
    (∀ j ≤ 256, (plotLoopStep gMin gMax arr st pos).1 j = st.1 j) ∧
      ((20 ≤ (plotLoopStep gMin gMax arr st pos).2 ∧
          (plotLoopStep gMin gMax arr st pos).2 ≤ 63) ∨
        (arr.get? pos = none ∧ (plotLoopStep gMin gMax arr st pos).2 = st.2)) := by
  cases harr : arr.get? pos with
  | none =>
      simp only [plotLoopStep, harr]
      exact ⟨fun j hj => plotColumnClear_low _ _ j hj, by simp⟩
  | some w =>
      have hw := hmem w (List.get?_mem harr)
      have hband := yPlot_band hlt hw.1 hw.2
      simp only [plotLoopStep, harr]
      have hprevband :
          20 ≤ (if pos = 0 then
              pinsMap (w : ℚ) (gMin : ℚ) (gMax : ℚ)
                (GRAPH_Y_MIN_LOCATION : ℚ) (GRAPH_Y_MAX_LOCATION : ℚ) else st.2) ∧
            (if pos = 0 then
              pinsMap (w : ℚ) (gMin : ℚ) (gMax : ℚ)
                (GRAPH_Y_MIN_LOCATION : ℚ) (GRAPH_Y_MAX_LOCATION : ℚ) else st.2) ≤ 63 := by
        by_cases h0 : pos = 0
        · simpa [h0] using hband
        · simpa [h0] using hprev.resolve_left h0
      have hseg := plotSeg_bounds hband.1 hband.2 hprevband.1 hprevband.2
      constructor
      · intro j hj
        rw [plotColumnSet_low _ _ _ _ hseg.1 (by linarith [hseg.2]) j hj,
          plotColumnClear_low _ _ j hj]
      · exact Or.inl hband

lemma refresh_screenBuf (env : ℕ → ℤ) (s : DState) (scr : Option ℕ)
    (h : s.initialised = 1) : (refresh env s scr).1.screenBuf = s.screenBuf := by
  simp [refresh, ensureInit, h]

lemma ensureInit_mk (env : ℕ → ℤ) (a : Option ℕ) (d : ℕ) (buf : ℕ → ℕ)
    (arr : List ℤ) (mn mx : ℤ) (py : ℚ) :
    ensureInit env (DState.mk d 1 buf arr mn mx py) a =
      (DState.mk d 1 buf arr mn mx py, []) := by
  simp [ensureInit]

lemma refresh_screenBuf_mk (env : ℕ → ℤ) (scr : Option ℕ) (d : ℕ) (buf : ℕ → ℕ)
    (arr : List ℤ) (mn mx : ℤ) (py : ℚ) :
    (refresh env (DState.mk d 1 buf arr mn mx py) scr).1.screenBuf = buf := by
  simp [refresh, ensureInit]

/-- Claim C10: from any initialised state whose graph data is consistent
(samples within the strictly ordered bounds, as every reachable state
satisfies), a `plot` call leaves untouched the leading marker byte at
index 0 and every framebuffer byte of pages 0 and 1 (indices 1 to 256,
pixel rows 0 to 15): the redraw writes only bytes of the graph band,
rows 20 to 63. -/
theorem plot_preserves_low_pages (env : ℕ → ℤ) (s : DState) (v : ℚ)
    (scr : Option ℕ) (hinit : s.initialised = 1) (hinv : plotInv s)
    (hlt : s.graphYMin < s.graphYMax) :
    ∀ i ≤ 256, (plot env s v scr).1.screenBuf i = s.screenBuf i := by
  intro i hi
  unfold plot
  dsimp only
  rw [hinit, ensureInit_mk]
  dsimp only
  rw [refresh_screenBuf_mk]
  set gMax' := if jsRound v > s.graphYMax then jsRound v else s.graphYMax with hgMax
  set gMin' := if jsRound v < s.graphYMin then jsRound v else s.graphYMin with hgMin
  set arr' := (if s.plotArray.length = 127 then s.plotArray.tail else s.plotArray)
      ++ [jsRound v] with harr
  have hlt' : gMin' < gMax' := by
    rw [hgMin, hgMax]
    split <;> split <;> omega
  have hmem' : ∀ w ∈ arr', gMin' ≤ w ∧ w ≤ gMax' := by
    intro w hw
    rw [harr] at hw
    rcases List.mem_append.mp hw with hmem | hmem
    · have hold : w ∈ s.plotArray := by
        by_cases hf : s.plotArray.length = 127
        · rw [if_pos hf] at hmem
          exact List.tail_subset _ hmem
        · rwa [if_neg hf] at hmem
      have := hinv w hold
      rw [hgMin, hgMax]
      constructor
      · split <;> omega
      · split <;> omega
    · have hw' : w = jsRound v := by simpa using hmem
      subst hw'
      rw [hgMin, hgMax]
      constructor
      · split <;> omega
      · split <;> omega
  rw [List.range_succ_eq_map, List.foldl_cons]
  have h0 := plotLoopStep_low hlt' hmem' (s.screenBuf, s.previousYPlot) 0 (Or.inl rfl)
  have harr0 : arr'.get? 0 ≠ none := by
    rw [harr]
    intro hn
    rw [List.get?_eq_none] at hn
    simp at hn
  have h0band : 20 ≤ (plotLoopStep gMin' gMax' arr'
      (s.screenBuf, s.previousYPlot) 0).2 ∧
      (plotLoopStep gMin' gMax' arr' (s.screenBuf, s.previousYPlot) 0).2 ≤ 63 := by
    rcases h0.2 with hband | hnone
    · exact hband
    · exact absurd hnone.1 harr0
  refine (foldl_inv _
    (fun st : (ℕ → ℕ) × ℚ =>
      (∀ j ≤ 256, st.1 j = s.screenBuf j) ∧ (20 ≤ st.2 ∧ st.2 ≤ 63))
    _ _ ⟨h0.1, h0band⟩ ?_).1 i hi
  intro st pos _ hP
  have hstep := plotLoopStep_low hlt' hmem' st pos (Or.inr hP.2)
  refine ⟨fun j hj => (hstep.1 j hj).trans (hP.1 j hj), ?_⟩
  rcases hstep.2 with hband | heq
  · exact hband
  · rw [heq.2]
    exact hP.2

/-- Claim C3: after any sequence of `plot` calls from a state satisfying
the scale invariant, `graphYMin` is at most every stored sample and
`graphYMax` at least every stored sample; and across a single call the
minimum never increases and the maximum never decreases. -/
theorem plot_bounds_invariant (env : ℕ → ℤ) (s : DState) (vs : List ℚ)
    (v : ℚ) (scr : Option ℕ) (hInv : plotInv s) :
    plotInv (plotMany env s vs) ∧
      (plot env s v scr).1.graphYMin ≤ s.graphYMin ∧
      s.graphYMax ≤ (plot env s v scr).1.graphYMax := by
  refine ⟨?_, ?_, ?_⟩
  · exact foldl_inv _ plotInv vs s hInv
      (fun s' v' _ h => plot_inv_step env s' v' none h)
  · rw [plot_graphYMin]
    split <;> omega
  · rw [plot_graphYMax]
    split <;> omega

/-- Witness for `plot_bounds_invariant`: samples 1, 2 then 5 from the
initial state, whose empty sample buffer satisfies the invariant. -/
theorem plot_bounds_invariant_witness :
    plotInv stInit ∧ plotInv (plotMany envOk stInit [1, 2]) ∧
      (plot envOk stInit 5 none).1.graphYMin ≤ stInit.graphYMin ∧
      stInit.graphYMax ≤ (plot envOk stInit 5 none).1.graphYMax := by
  have h0 : plotInv stInit := by
    intro w hw
    simp [stInit] at hw
  have h := plot_bounds_invariant envOk stInit [1, 2] 5 none h0
  exact ⟨h0, h.1, h.2.1, h.2.2⟩

lemma setPixel_state (env : ℕ → ℤ) (s : DState) (x y : ℕ) (scr : Option ℕ)
    (h : s.initialised = 1) :
    (setPixel env s x y scr).1 =
      { s with
        displayAddress := setScreenAddr scr
        screenBuf := bufSet s.screenBuf ((x : ℤ) + (y >>> 3 : ℕ) * 128 + 1)
          (bufGet s.screenBuf ((x : ℤ) + (y >>> 3 : ℕ) * 128 + 1) ||| (1 <<< (y % 8))) } := by
  simp [setPixel, ensureInit, h]

lemma clearPixel_state (env : ℕ → ℤ) (s : DState) (x y : ℕ) (scr : Option ℕ)
    (h : s.initialised = 1) :
    (clearPixel env s x y scr).1 =
      { s with
        displayAddress := setScreenAddr scr
        screenBuf := bufSet s.screenBuf ((x : ℤ) + (y >>> 3 : ℕ) * 128 + 1)
          (clearBit (bufGet s.screenBuf ((x : ℤ) + (y >>> 3 : ℕ) * 128 + 1)) (y % 8)) } := by
  simp [clearPixel, ensureInit, h]

lemma bit_set_clear_roundtrip {d : ℕ} {b : ℕ} (hd : d < 256) (hb : b < 8)
    (h : d.testBit b = false) : clearBit (d ||| (1 <<< b)) b = d := by
  have key : ∀ d' : Fin 256, ∀ b' : Fin 8, (d' : ℕ).testBit (b' : ℕ) = false →
      clearBit ((d' : ℕ) ||| (1 <<< (b' : ℕ))) (b' : ℕ) = (d' : ℕ) := by decide
  exact key ⟨d, hd⟩ ⟨b, hb⟩ h

/-- Claim C1 (corrected): for in-range coordinates on an initialised
display, `setPixel(x, y)` followed by `clearPixel(x, y)` restores the
framebuffer byte at index `x + (y >> 3) * 128 + 1` to its value before
the `setPixel` call, PROVIDED that the pixel `(x, y)` was clear
beforehand (see the counterexample for the already-set case). -/
theorem setPixel_clearPixel_roundtrip (env : ℕ → ℤ) (s : DState) (x y : ℕ)
    (scr1 scr2 : Option ℕ) (hinit : s.initialised = 1) (hx : x ≤ 127) (hy : y ≤ 63)
    (hbyte : s.screenBuf (x + (y >>> 3) * 128 + 1) < 256)
    (hbit : (s.screenBuf (x + (y >>> 3) * 128 + 1)).testBit (y % 8) = false) :
    (clearPixel env (setPixel env s x y scr1).1 x y scr2).1.screenBuf
        (x + (y >>> 3) * 128 + 1) = s.screenBuf (x + (y >>> 3) * 128 + 1) := by
  have hpage : y >>> 3 ≤ 7 := by
    rw [Nat.shiftRight_eq_div_pow]; omega
  have hb8 : y % 8 < 8 := Nat.mod_lt _ (by norm_num)
  have h0 : (0 : ℤ) ≤ (x : ℤ) + (y >>> 3 : ℕ) * 128 + 1 := by positivity
  have h1 : (x : ℤ) + (y >>> 3 : ℕ) * 128 + 1 < 1025 := by omega
  have htn : ((x : ℤ) + (y >>> 3 : ℕ) * 128 + 1).toNat = x + (y >>> 3) * 128 + 1 := by
    omega
  have hor : s.screenBuf (x + (y >>> 3) * 128 + 1) ||| (1 <<< (y % 8)) < 256 := by
    have h2 : (1 : ℕ) <<< (y % 8) < 256 := by
      rw [Nat.shiftLeft_eq, one_mul]
      calc (2 : ℕ) ^ (y % 8) ≤ 2 ^ 7 := Nat.pow_le_pow_right (by norm_num) (by omega)
        _ < 256 := by norm_num
    exact Nat.or_lt_two_pow (n := 8) hbyte h2
  have hinit1 : (setPixel env s x y scr1).1.initialised = 1 := by
    rw [setPixel_state env s x y scr1 hinit]; exact hinit
  rw [clearPixel_state env _ x y scr2 hinit1, setPixel_state env s x y scr1 hinit]
  dsimp only
  rw [bufGet_in s.screenBuf h0 h1, htn]
  rw [bufGet_in _ h0 h1, bufSet_apply_same _ _ h0 h1,
    Nat.mod_eq_of_lt hor, bit_set_clear_roundtrip hbyte hb8 hbit]
  conv_lhs => rw [← htn]
  rw [bufSet_apply_same _ _ h0 h1, htn, Nat.mod_eq_of_lt hbyte]

/-- Counterexample to claim C1 as stated: on an initialised display whose
framebuffer bytes are all 1 (so pixel (0,0) is already set), `setPixel(0,0)`
then `clearPixel(0,0)` leaves the byte at index `0 + (0 >> 3) * 128 + 1`
equal to 0, not to its pre-`setPixel` value 1: the round trip clears a
pixel that was set before the call. -/
theorem setPixel_clearPixel_roundtrip_cex :
    (clearPixel envOk (setPixel envOk stOnes 0 0 none).1 0 0 none).1.screenBuf
        (0 + (0 >>> 3) * 128 + 1) = 0 ∧
      stOnes.screenBuf (0 + (0 >>> 3) * 128 + 1) = 1 := by
  exact ⟨rfl, rfl⟩

/-- Witness for `setPixel_clearPixel_roundtrip` at x = 3, y = 5 on an
initialised display with a cleared framebuffer. -/
theorem setPixel_clearPixel_roundtrip_witness :
    stInit.initialised = 1 ∧
      (clearPixel envOk (setPixel envOk stInit 3 5 none).1 3 5 none).1.screenBuf
          (3 + (5 >>> 3) * 128 + 1) = stInit.screenBuf (3 + (5 >>> 3) * 128 + 1) :=
  ⟨rfl, setPixel_clearPixel_roundtrip envOk stInit 3 5 none none rfl (by norm_num)
    (by norm_num) (by decide) (by decide)⟩

lemma clearBit_le (d b : ℕ) : clearBit d b ≤ d := by
  unfold clearBit
  split
  · exact Nat.sub_le _ _
  · exact le_refl d

lemma clearBit_testBit :
    ∀ (d : Fin 256) (b b' : Fin 8),
      (clearBit (d : ℕ) (b : ℕ)).testBit (b' : ℕ) =
        ((d : ℕ).testBit (b' : ℕ) && decide ((b : ℕ) ≠ (b' : ℕ))) := by decide

lemma lor_bit_testBit :
    ∀ (d : Fin 256) (b b' : Fin 8),
      ((d : ℕ) ||| (1 <<< (b : ℕ))).testBit (b' : ℕ) =
        ((d : ℕ).testBit (b' : ℕ) || decide ((b' : ℕ) = (b : ℕ))) := by decide

lemma lor_bit_lt_256 {d s : ℕ} (hd : d < 256) (hs : s < 8) :
    d ||| (1 <<< s) < 256 := by
  have h2 : (1 : ℕ) <<< s < 256 := by
    rw [Nat.shiftLeft_eq, one_mul]
    calc (2 : ℕ) ^ s ≤ 2 ^ 7 := Nat.pow_le_pow_right (by norm_num) (by omega)
      _ < 256 := by norm_num
  exact Nat.or_lt_two_pow (n := 8) hd h2

lemma bufSet_lt256 {b : ℕ → ℕ} (hb : ∀ i, b i < 256) (idx : ℤ) (v : ℕ) :
    ∀ i, bufSet b idx v i < 256 := by
  intro i
  unfold bufSet
  split
  · rw [Function.update_apply]
    split
    · exact Nat.mod_lt _ (by norm_num)
    · exact hb i
  · exact hb i

lemma bufGet_lt256 {b : ℕ → ℕ} (hb : ∀ i, b i < 256) (idx : ℤ) :
    bufGet b idx < 256 := by
  unfold bufGet
  split
  · exact hb _
  · norm_num

lemma shiftRight3 (n : ℕ) : n >>> 3 = n / 8 := by
  rw [Nat.shiftRight_eq_div_pow]

/-- Writing byte value `v` at column `x3`, page `pg` changes exactly the
pixels of that byte: pixel `(x3, r)` becomes bit `r % 8` of `v` when `r`
lies in page `pg`, and is untouched otherwise. -/
lemma getPixel_bufSet_byte (b : ℕ → ℕ) (x3 pg v r : ℕ) (hx : x3 ≤ 127)
    (hpg : pg ≤ 7) (_hr : r ≤ 63) (hv : v < 256) :
    getPixel (bufSet b ((x3 : ℤ) + (pg : ℕ) * 128 + 1) v) x3 r =
      if r / 8 = pg then v.testBit (r % 8) else getPixel b x3 r := by
  unfold getPixel
  by_cases hpage : r / 8 = pg
  · rw [if_pos hpage]
    have hidx : x3 + (r >>> 3) * 128 + 1 = ((x3 : ℤ) + (pg : ℕ) * 128 + 1).toNat := by
      rw [shiftRight3]
      omega
    rw [hidx, bufSet_apply_same _ _ (by positivity) (by omega), Nat.mod_eq_of_lt hv]
  · rw [if_neg hpage]
    have hne : ((x3 + (r >>> 3) * 128 + 1 : ℕ) : ℤ) ≠ (x3 : ℤ) + (pg : ℕ) * 128 + 1 := by
      rw [shiftRight3]
      push_cast
      omega
    rw [bufSet_apply_ne _ _ hne]

/-- The body of the column-clearing loop of `plot` at pixel `p` clears
exactly pixel `(x3, p)` and touches no other pixel of the screen. -/
lemma getPixel_clearStep (b : ℕ → ℕ) (x3 p r : ℕ) (hx : x3 ≤ 127) (hp : p ≤ 63)
    (hr : r ≤ 63) (hb : ∀ i, b i < 256) :
    getPixel (bufSet b ((x3 : ℤ) + (p >>> 3 : ℕ) * 128 + 1)
        (clearBit (bufGet b ((x3 : ℤ) + (p >>> 3 : ℕ) * 128 + 1)) (p % 8))) x3 r =
      (getPixel b x3 r && decide (r ≠ p)) := by
  have hvlt : bufGet b ((x3 : ℤ) + (p >>> 3 : ℕ) * 128 + 1) < 256 := bufGet_lt256 hb _
  have hclt : clearBit (bufGet b ((x3 : ℤ) + (p >>> 3 : ℕ) * 128 + 1)) (p % 8) < 256 :=
    lt_of_le_of_lt (clearBit_le _ _) hvlt
  have hstep := getPixel_bufSet_byte b x3 (p >>> 3)
    (clearBit (bufGet b ((x3 : ℤ) + (p >>> 3 : ℕ) * 128 + 1)) (p % 8)) r hx
    (by rw [shiftRight3]; omega) hr hclt
  rw [hstep]
  by_cases hpage : r / 8 = p >>> 3
  · rw [if_pos hpage]
    rw [shiftRight3] at hpage
    have hget : bufGet b ((x3 : ℤ) + (p >>> 3 : ℕ) * 128 + 1)
        = b (x3 + (r >>> 3) * 128 + 1) := by
      rw [bufGet_in _ (by positivity) (by rw [shiftRight3]; omega)]
      congr 1
      rw [shiftRight3, shiftRight3]
      omega
    rw [hget]
    have hbit := clearBit_testBit ⟨b (x3 + (r >>> 3) * 128 + 1), hb _⟩
      ⟨p % 8, by omega⟩ ⟨r % 8, by omega⟩
    simp only [Fin.val_mk] at hbit
    rw [hbit]
    unfold getPixel
    by_cases heq : r = p
    · simp [heq]
    · have : p % 8 ≠ r % 8 := by omega
      simp [heq, this]
  · rw [if_neg hpage]
    rw [shiftRight3] at hpage
    have : r ≠ p := by omega
    simp [this]

/-- The body of the integer column-drawing loop at pixel `p` sets exactly
pixel `(x3, p)` and touches no other pixel of the screen. -/
lemma getPixel_setStep (b : ℕ → ℕ) (x3 p r : ℕ) (hx : x3 ≤ 127) (hp : p ≤ 63)
    (hr : r ≤ 63) (hb : ∀ i, b i < 256) :
    getPixel (bufSet b ((x3 : ℤ) + ((p / 8 : ℕ) : ℤ) * 128 + 1)
        (bufGet b ((x3 : ℤ) + ((p / 8 : ℕ) : ℤ) * 128 + 1) ||| (1 <<< (p % 8)))) x3 r =
      (getPixel b x3 r || decide (r = p)) := by
  have hvlt : bufGet b ((x3 : ℤ) + ((p / 8 : ℕ) : ℤ) * 128 + 1) < 256 := bufGet_lt256 hb _
  have holt : bufGet b ((x3 : ℤ) + ((p / 8 : ℕ) : ℤ) * 128 + 1) ||| (1 <<< (p % 8)) < 256 :=
    lor_bit_lt_256 hvlt (by omega)
  have hstep := getPixel_bufSet_byte b x3 (p / 8)
    (bufGet b ((x3 : ℤ) + ((p / 8 : ℕ) : ℤ) * 128 + 1) ||| (1 <<< (p % 8))) r hx
    (by omega) hr holt
  rw [hstep]
  by_cases hpage : r / 8 = p / 8
  · rw [if_pos hpage]
    have hget : bufGet b ((x3 : ℤ) + ((p / 8 : ℕ) : ℤ) * 128 + 1)
        = b (x3 + (r >>> 3) * 128 + 1) := by
      rw [bufGet_in _ (by positivity) (by omega)]
      congr 1
      rw [shiftRight3]
      omega
    rw [hget]
    have hbit := lor_bit_testBit ⟨b (x3 + (r >>> 3) * 128 + 1), hb _⟩
      ⟨p % 8, by omega⟩ ⟨r % 8, by omega⟩
    simp only [Fin.val_mk] at hbit
    rw [hbit]
    unfold getPixel
    by_cases heq : r = p
    · simp [heq]
    · have : r % 8 ≠ p % 8 := by omega
      simp [heq, this]
  · rw [if_neg hpage]
    have : r ≠ p := by omega
    simp [this]

/-- Pixel semantics of the whole column-clearing loop: it clears every
pixel of column `x3` in the band `[20, 63]` and touches nothing else. -/
lemma plotColumnClear_pixels (buf : ℕ → ℕ) (x3 : ℕ) (hx : x3 ≤ 127)
    (hb : ∀ i, buf i < 256) :
    (∀ i, plotColumnClear buf x3 i < 256) ∧
      ∀ r, r ≤ 63 → getPixel (plotColumnClear buf x3) x3 r =
        (getPixel buf x3 r && decide (r ∉ List.range'
          GRAPH_Y_MAX_LOCATION (GRAPH_Y_MIN_LOCATION - GRAPH_Y_MAX_LOCATION + 1))) := by
  unfold plotColumnClear
  generalize hL : List.range' GRAPH_Y_MAX_LOCATION
    (GRAPH_Y_MIN_LOCATION - GRAPH_Y_MAX_LOCATION + 1) = L
  have hLmem : ∀ p ∈ L, p ≤ 63 := by
    intro p hp
    rw [← hL] at hp
    simp only [List.mem_range'_1, GRAPH_Y_MAX_LOCATION, GRAPH_Y_MIN_LOCATION] at hp
    omega
  clear hL
  induction L generalizing buf with
  | nil => exact ⟨hb, fun r hr => by simp⟩
  | cons p L ih =>
      have hp : p ≤ 63 := hLmem p (by simp)
      have hb' : ∀ i, (bufSet buf ((x3 : ℤ) + (p >>> 3 : ℕ) * 128 + 1)
          (clearBit (bufGet buf ((x3 : ℤ) + (p >>> 3 : ℕ) * 128 + 1)) (p % 8))) i < 256 :=
        bufSet_lt256 hb _ _
      have hrec := ih _ hb' (fun q hq => hLmem q (by simp [hq]))
      rw [List.foldl_cons]
      refine ⟨hrec.1, ?_⟩
      intro r hr
      rw [hrec.2 r hr, getPixel_clearStep buf x3 p r hx hp hr hb]
      by_cases hmem : r ∈ L
      · simp [hmem]
      · by_cases heq : r = p
        · simp [heq, hmem]
        · simp [heq, hmem]

/-- Pixel semantics of the integer column-drawing loop: starting at row
`p0` it sets exactly the `cnt` pixels `p0 ≤ r < p0 + cnt` of column `x3`
and touches nothing else. -/
lemma plotColumnSetInt_pixels (x3 : ℕ) (hx : x3 ≤ 127) :
    ∀ (cnt : ℕ) (p0 : ℕ) (b : ℕ → ℕ), p0 + cnt ≤ 64 → (∀ i, b i < 256) →
      (∀ i, plotColumnSetInt b x3 (p0 : ℤ) cnt i < 256) ∧
      ∀ r, r ≤ 63 → getPixel (plotColumnSetInt b x3 (p0 : ℤ) cnt) x3 r =
        (getPixel b x3 r || decide (p0 ≤ r ∧ r < p0 + cnt)) := by
  intro cnt
  induction cnt with
  | zero =>
      intro p0 b hle hb
      refine ⟨by simpa [plotColumnSetInt] using hb, ?_⟩
      intro r hr
      simp [plotColumnSetInt]
  | succ n ih =>
      intro p0 b hle hb
      have hrec := ih p0 b (by omega) hb
      have hstepeq : plotColumnSetInt b x3 (p0 : ℤ) (n + 1) =
          bufSet (plotColumnSetInt b x3 (p0 : ℤ) n)
            ((x3 : ℤ) + (((p0 + n) / 8 : ℕ) : ℤ) * 128 + 1)
            (bufGet (plotColumnSetInt b x3 (p0 : ℤ) n)
              ((x3 : ℤ) + (((p0 + n) / 8 : ℕ) : ℤ) * 128 + 1) ||| (1 <<< ((p0 + n) % 8))) := by
        unfold plotColumnSetInt
        rw [List.range_succ, List.foldl_append, List.foldl_cons, List.foldl_nil]
        dsimp only
        have hfd : ((p0 : ℤ) + (n : ℤ)).fdiv 8 = (((p0 + n) / 8 : ℕ) : ℤ) := by
          rw [Int.fdiv_eq_ediv _ (by norm_num)]
          push_cast
          omega
        have hmd : (((p0 : ℤ) + (n : ℤ)).emod 8).toNat = (p0 + n) % 8 := by
          have hre : ((p0 : ℤ) + (n : ℤ)).emod 8 = ((p0 : ℤ) + (n : ℤ)) % 8 := rfl
          rw [hre]
          omega
        rw [hfd, hmd]
      rw [hstepeq]
      refine ⟨bufSet_lt256 hrec.1 _ _, ?_⟩
      intro r hr
      rw [getPixel_setStep _ x3 (p0 + n) r hx (by omega) hr hrec.1, hrec.2 r hr]
      by_cases h1 : p0 ≤ r ∧ r < p0 + n
      · simp [h1, show p0 ≤ r ∧ r < p0 + (n + 1) by omega]
      · by_cases h2 : r = p0 + n
        · simp [h1, h2, show p0 ≤ p0 + n ∧ p0 + n < p0 + (n + 1) by omega]
        · simp [h1, h2, show ¬(p0 ≤ r ∧ r < p0 + (n + 1)) by omega]

lemma jsTrunc_natCast (n : ℕ) : jsTrunc (n : ℚ) = (n : ℤ) := by
  rw [jsTrunc_nonneg (by positivity), Int.floor_natCast]

/-- `plotColumnSet` at integral start and length coincides with the
integer loop `plotColumnSetInt`. -/
lemma plotColumnSet_natCast (b : ℕ → ℕ) (x3 : ℕ) (y0 cnt : ℕ) :
    plotColumnSet b x3 (y0 : ℚ) (cnt : ℚ) = plotColumnSetInt b x3 (y0 : ℤ) cnt := by
  unfold plotColumnSet plotColumnSetInt
  have hceil : (⌈(cnt : ℚ)⌉).toNat = cnt := by
    rw [Int.ceil_natCast]
    exact Int.toNat_natCast cnt
  rw [hceil]
  congr 1
  funext b' k
  have hcast : (y0 : ℚ) + (k : ℚ) = (((y0 : ℤ) + (k : ℤ) : ℤ) : ℚ) := by
    push_cast
    ring
  have htr : jsTrunc ((y0 : ℚ) + (k : ℚ)) = (y0 : ℤ) + (k : ℤ) := by
    rw [hcast]
    have hnn : (0 : ℚ) ≤ (((y0 : ℤ) + (k : ℤ) : ℤ) : ℚ) := by positivity
    rw [jsTrunc_nonneg hnn, Int.floor_intCast]
  dsimp only
  rw [htr]

/-- Claim C8 (corrected): the per-index drawing step of `plot` — clear
the whole band `[20, 63]` of the sample's column, then run the segment
loop `for (pixel = y3; pixel < y3 + len; pixel++)` with `y3`/`len`
chosen by `plotSeg` — leaves set exactly the pixels from the smaller
mapped row (inclusive) up to the larger mapped row EXCLUSIVE; only when
the two mapped rows are equal is the single pixel at that row set.  The
claim's "inclusive of both endpoints" fails at the larger row (see the
counterexample). -/
theorem plot_segment_pixels (buf : ℕ → ℕ) (x3 prev cur : ℕ) (hx : x3 ≤ 127)
    (hprev1 : 20 ≤ prev) (hprev2 : prev ≤ 63) (hcur1 : 20 ≤ cur) (hcur2 : cur ≤ 63)
    (hb : ∀ i, buf i < 256) (r : ℕ) (hr1 : 20 ≤ r) (hr2 : r ≤ 63) :
    getPixel (plotColumnSet (plotColumnClear buf x3) x3
        (plotSeg (cur : ℚ) (prev : ℚ)).1 (plotSeg (cur : ℚ) (prev : ℚ)).2) x3 r = true ↔
      ((prev ≠ cur ∧ min prev cur ≤ r ∧ r < max prev cur) ∨ (prev = cur ∧ r = cur)) := by
  have hclear := plotColumnClear_pixels buf x3 hx hb
  have hrin : r ∈ List.range' GRAPH_Y_MAX_LOCATION
      (GRAPH_Y_MIN_LOCATION - GRAPH_Y_MAX_LOCATION + 1) := by
    simp only [List.mem_range'_1, GRAPH_Y_MAX_LOCATION, GRAPH_Y_MIN_LOCATION]
    omega
  rcases lt_trichotomy cur prev with hlt | heq | hgt
  · have hseg : plotSeg (cur : ℚ) (prev : ℚ) = (((cur : ℕ) : ℚ), ((prev - cur : ℕ) : ℚ)) := by
      unfold plotSeg
      rw [if_pos (by exact_mod_cast hlt)]
      rw [Nat.cast_sub hlt.le]
    rw [hseg]
    rw [plotColumnSet_natCast]
    have hset := plotColumnSetInt_pixels x3 hx (prev - cur) cur
      (plotColumnClear buf x3) (by omega) hclear.1
    rw [hset.2 r hr2, hclear.2 r hr2]
    simp [hrin]
    omega
  · have hseg : plotSeg (cur : ℚ) (prev : ℚ) = (((cur : ℕ) : ℚ), ((1 : ℕ) : ℚ)) := by
      unfold plotSeg
      rw [heq]
      rw [if_neg (lt_irrefl _), if_neg (lt_irrefl _)]
      norm_num
    rw [hseg]
    rw [plotColumnSet_natCast]
    have hset := plotColumnSetInt_pixels x3 hx 1 cur
      (plotColumnClear buf x3) (by omega) hclear.1
    rw [hset.2 r hr2, hclear.2 r hr2]
    simp [hrin]
    omega
  · have hseg : plotSeg (cur : ℚ) (prev : ℚ) = (((prev : ℕ) : ℚ), ((cur - prev : ℕ) : ℚ)) := by
      unfold plotSeg
      rw [if_neg (by exact_mod_cast not_lt.mpr hgt.le), if_pos (by exact_mod_cast hgt)]
      rw [Nat.cast_sub hgt.le]
    rw [hseg]
    rw [plotColumnSet_natCast]
    have hset := plotColumnSetInt_pixels x3 hx (cur - prev) prev
      (plotColumnClear buf x3) (by omega) hclear.1
    rw [hset.2 r hr2, hclear.2 r hr2]
    simp [hrin]
    omega

/-- Counterexample to claim C8 as stated: with previous mapped row 63 and
current mapped row 20 (exactly the situation at index 1 of the call
`plot(100)` following `plot(0)` from the initial scale 0..100), the
column step leaves pixel `(x3, 63)` CLEAR, although the claim's
"vertical segment between the previous and the current mapped row,
inclusive of both endpoints" requires it to be set. -/
theorem plot_segment_cex :
    getPixel (plotColumnSet (plotColumnClear clearedBuf 1) 1
        (plotSeg ((20 : ℕ) : ℚ) ((63 : ℕ) : ℚ)).1
        (plotSeg ((20 : ℕ) : ℚ) ((63 : ℕ) : ℚ)).2) 1 63 = false := by
  have hseg : plotSeg ((20 : ℕ) : ℚ) ((63 : ℕ) : ℚ) = (((20 : ℕ) : ℚ), ((43 : ℕ) : ℚ)) := by
    unfold plotSeg
    norm_num
  rw [hseg, plotColumnSet_natCast]
  decide

/-- Witness for `plot_segment_pixels`: previous row 25, current row 30,
pixel row 27 of column 2 on a cleared framebuffer. -/
theorem plot_segment_pixels_witness :
    (∀ i, clearedBuf i < 256) ∧
      (getPixel (plotColumnSet (plotColumnClear clearedBuf 2) 2
          (plotSeg ((30 : ℕ) : ℚ) ((25 : ℕ) : ℚ)).1
          (plotSeg ((30 : ℕ) : ℚ) ((25 : ℕ) : ℚ)).2) 2 27 = true ↔
        ((25 ≠ 30 ∧ min 25 30 ≤ 27 ∧ 27 < max 25 30) ∨ (25 = 30 ∧ 27 = 30))) :=
  ⟨fun i => by unfold clearedBuf; split <;> norm_num,
    plot_segment_pixels clearedBuf 2 25 30 (by norm_num) (by norm_num) (by norm_num)
      (by norm_num) (by norm_num) (fun i => by unfold clearedBuf; split <;> norm_num)
      27 (by norm_num) (by norm_num)⟩

lemma show_log (env : ℕ → ℤ) (s : DState) (input : List Char) (line : Option ℕ)
    (al : Option ShowAlign) (scr : Option ℕ) (hinit : s.initialised = 1) :
    («show» env s input line al scr).2 =
      ((showLines (input ++ [' ']) (resolveLine line)).enum.foldl
        (fun r p => renderLine (input ++ [' ']).length (resolveAlign al)
          (setScreenAddr scr) p.1 r p.2)
        ⟨s.screenBuf, 0, resolveLine line, 0, []⟩).log := by
  unfold «show»
  dsimp only
  rw [hinit, ensureInit_mk]
  dsimp only
  rw [List.nil_append]

lemma renderLine_dataCount (inputLen : ℕ) (al : ShowAlign) (addr textLine : ℕ)
    (r : RenderSt) (ds : List Char)
    (hlen : ¬ inputLen < NUMBER_OF_CHAR_PER_LINE - 1) (hx : r.x ≤ 25) (hy : r.y ≤ 7) :
    dataWriteCount (renderLine inputLen al addr textLine r ds).log =
      dataWriteCount r.log + 1 := by
  unfold renderLine
  rw [if_neg hlen]
  dsimp only
  unfold dataWriteCount set_posLog writeOneByteW
  rw [List.filter_append, List.filter_append, List.length_append, List.length_append]
  have hslice : 1 ≤ min
      ((renderChars ds r.x r.y (r.buf, r.ind)).2 + 1)
      (1025 - (r.x * 5 + r.y * 128)) := by
    refine le_min (by omega) (by omega)
  obtain ⟨m, hm⟩ : ∃ m, ((renderChars ds r.x r.y (r.buf, r.ind)).2 + 1) ⊓
      (1025 - (r.x * 5 + r.y * 128)) = m + 1 :=
    ⟨((renderChars ds r.x r.y (r.buf, r.ind)).2 + 1) ⊓
      (1025 - (r.x * 5 + r.y * 128)) - 1, by omega⟩
  rw [hm]
  rw [List.range_succ_eq_map, List.map_cons]
  simp

/-- Claim C5: when the space-appended input is longer than 26 characters
and the call targets line 8 (the last row, index 7), `show` skips the
word-wrap: it produces exactly one rendered line, the first 25
characters of the space-appended input, and performs exactly one bulk
data write. -/
theorem show_lastline_truncate (env : ℕ → ℤ) (s : DState) (input : List Char)
    (al : Option ShowAlign) (scr : Option ℕ) (hinit : s.initialised = 1)
    (hlen : (input ++ [' ']).length > 26) :
    showLines (input ++ [' ']) 7 = [(input ++ [' ']).take 25] ∧
      dataWriteCount ((«show» env s input (some 8) al scr).2) = 1 := by
  have hlines : showLines (input ++ [' ']) 7 = [(input ++ [' ']).take 25] := by
    unfold showLines
    rw [if_pos (by unfold NUMBER_OF_CHAR_PER_LINE; omega), if_pos rfl]
    unfold jsSubstr NUMBER_OF_CHAR_PER_LINE
    simp
  refine ⟨hlines, ?_⟩
  rw [show_log env s input (some 8) al scr hinit]
  have hresolve : resolveLine (some 8) = 7 := rfl
  rw [hresolve, hlines]
  rw [show List.enum [(input ++ [' ']).take 25] = [(0, (input ++ [' ']).take 25)] from rfl]
  rw [List.foldl_cons, List.foldl_nil]
  rw [renderLine_dataCount _ _ _ _ _ _ (by unfold NUMBER_OF_CHAR_PER_LINE; omega)
    (by norm_num) (by norm_num)]
  rfl

/-- Witness for `show_lastline_truncate`: a 29-character input shown on
line 8 of an initialised display. -/
theorem show_lastline_truncate_witness :
    stInit.initialised = 1 ∧
      ("ABCDEFGH IJKLMNOPQ RSTUVWXYZ".toList ++ [' ']).length > 26 ∧
      showLines ("ABCDEFGH IJKLMNOPQ RSTUVWXYZ".toList ++ [' ']) 7 =
        [("ABCDEFGH IJKLMNOPQ RSTUVWXYZ".toList ++ [' ']).take 25] ∧
      dataWriteCount ((«show» envOk stInit "ABCDEFGH IJKLMNOPQ RSTUVWXYZ".toList
        (some 8) none none).2) = 1 := by
  have h := show_lastline_truncate envOk stInit "ABCDEFGH IJKLMNOPQ RSTUVWXYZ".toList
    none none rfl (by decide)
  exact ⟨rfl, by decide, h.1, h.2⟩

/-- Claim C4 is the intended behaviour; the code has a bug.  On the
60-character input below (every word at most 26 characters wide, shown
from line 1), the word-wrap of `show` produces THREE lines whose second
is 35 characters long and repeats the text "HOME AB " that also ends the
third line: the `substr(startOfString, spacePoint)` calls of the wrap
loop pass an absolute position where MakeCode `substr` expects a length,
contradicting the accompanying comment "Cut the string from start of
word to the last space".  So lines are neither bounded by 26 characters
nor does their concatenation restore the original text. -/
theorem show_wordwrap_failing_input :
    showLines (failText ++ [' ']) 0 =
      ["THE QUICK BROWN FOX JUMPS".toList,
       "OVER THE LAZY DOG AND RUNS HOME AB ".toList,
       "HOME AB ".toList] ∧
      failText.length = 60 ∧
      ("OVER THE LAZY DOG AND RUNS HOME AB ".toList).length = 35 := by
  exact ⟨by decide, by decide, by decide⟩

/-- Counterexample to claim C6 as stated: `show` of the 29-character
text below with Right alignment wraps it into one produced line of 24
characters (the trailing words are lost by the wrap loop), for which the
claim's Right formula gives start cell `26 - 24 - 1 + 0 = 1`, i.e. a
start-column command `[0x00, 5]`; the code never evaluates the alignment
expression for inputs of 25 or more characters and emits start column 0
(`[0x00, 0]`). -/
theorem show_alignment_cex :
    ((«show» envOk stInit "AAAA BBBB CCCC DDDD EEEE FFFF".toList (some 1)
        (some ShowAlign.Right) none).2.get? 1 =
      some (writeOneByteW 60 (0x00 ||| (0 * 5) % 16))) ∧
      (showLines ("AAAA BBBB CCCC DDDD EEEE FFFF".toList ++ [' ']) 0).map List.length
        = [24] ∧
      alignFormula ShowAlign.Right 24 0 = 1 ∧
      (0x00 ||| (0 * 5) % 16 : ℕ) ≠ 0x00 ||| (1 * 5) % 16 := by
  refine ⟨?_, by decide, by decide, by decide⟩
  rfl

lemma renderLine_x (inputLen : ℕ) (al : ShowAlign) (addr textLine : ℕ)
    (r : RenderSt) (ds : List Char) :
    (renderLine inputLen al addr textLine r ds).x =
      if inputLen < NUMBER_OF_CHAR_PER_LINE - 1 then
        (match al with
         | ShowAlign.Left => 0
         | ShowAlign.Centre =>
             (jsRound ((NUMBER_OF_CHAR_PER_LINE - (ds.length : ℚ)) / 2)).toNat
         | ShowAlign.Right => NUMBER_OF_CHAR_PER_LINE - ds.length - 1 + textLine)
      else r.x := rfl

lemma renderLine_log_cases (inputLen : ℕ) (al : ShowAlign) (addr textLine : ℕ)
    (r : RenderSt) (ds : List Char) :
    ∃ payload, (payload = [] ∨ payload.head? = some (0x40 : ℕ)) ∧
      (renderLine inputLen al addr textLine r ds).log =
        r.log ++ set_posLog addr ((renderLine inputLen al addr textLine r ds).x * 5) r.y
          ++ [⟨addr, payload⟩] := by
  have hpay : ∀ (n : ℕ) (f : ℕ → ℕ), f 0 = 0x40 →
      (List.range n).map f = [] ∨ ((List.range n).map f).head? = some (0x40 : ℕ) := by
    intro n f hf
    cases n with
    | zero => left; rfl
    | succ m =>
        right
        rw [List.range_succ_eq_map, List.map_cons, hf]
        rfl
  refine ⟨_, ?_, rfl⟩
  exact hpay _ _ rfl

lemma show_fold_shape (inputLen : ℕ) (al : ShowAlign) (addr : ℕ) (Q : BusWrite → Prop)
    (hcmd : ∀ b, Q ⟨addr, [0, b]⟩)
    (hdata : ∀ payload, (payload = [] ∨ payload.head? = some (0x40 : ℕ)) →
      Q ⟨addr, payload⟩) :
    ∀ (lines : List (ℕ × List Char)) (r : RenderSt), (∀ w ∈ r.log, Q w) →
      ∀ w ∈ (lines.foldl (fun r p => renderLine inputLen al addr p.1 r p.2) r).log,
        Q w := by
  intro lines
  induction lines with
  | nil => intro r hr; exact hr
  | cons p lines ih =>
      intro r hr
      rw [List.foldl_cons]
      refine ih _ ?_
      obtain ⟨payload, hpl, hlog⟩ := renderLine_log_cases inputLen al addr p.1 r p.2
      rw [hlog]
      intro w hw
      rcases List.mem_append.mp hw with hw' | hw'
      · rcases List.mem_append.mp hw' with hw'' | hw''
        · exact hr w hw''
        · unfold set_posLog writeOneByteW at hw''
          simp only [List.mem_cons, List.not_mem_nil, or_false] at hw''
          rcases hw'' with h | h | h <;> subst h <;> exact hcmd _
      · simp only [List.mem_singleton] at hw'
        subst hw'
        exact hdata payload hpl

lemma show_fold_cols_zero (inputLen : ℕ) (al : ShowAlign) (addr : ℕ)
    (hlen : ¬ inputLen < NUMBER_OF_CHAR_PER_LINE - 1) :
    ∀ (lines : List (ℕ × List Char)) (r : RenderSt), r.x = 0 →
      (∀ w ∈ r.log, (∃ p, w.bytes = [0, 0xb0 ||| p]) ∨ w.bytes = [0, 0] ∨
        w.bytes = [0, 0x10] ∨ w.bytes.head? = some (0x40 : ℕ) ∨ w.bytes = []) →
      (lines.foldl (fun r p => renderLine inputLen al addr p.1 r p.2) r).x = 0 ∧
      ∀ w ∈ (lines.foldl (fun r p => renderLine inputLen al addr p.1 r p.2) r).log,
        (∃ p, w.bytes = [0, 0xb0 ||| p]) ∨ w.bytes = [0, 0] ∨
          w.bytes = [0, 0x10] ∨ w.bytes.head? = some (0x40 : ℕ) ∨ w.bytes = [] := by
  intro lines
  induction lines with
  | nil => intro r hx hr; exact ⟨hx, hr⟩
  | cons p lines ih =>
      intro r hx hr
      rw [List.foldl_cons]
      have hx' : (renderLine inputLen al addr p.1 r p.2).x = 0 := by
        rw [renderLine_x, if_neg hlen, hx]
      refine ih _ hx' ?_
      obtain ⟨payload, hpl, hlog⟩ := renderLine_log_cases inputLen al addr p.1 r p.2
      rw [hlog]
      intro w hw
      rcases List.mem_append.mp hw with hw' | hw'
      · rcases List.mem_append.mp hw' with hw'' | hw''
        · exact hr w hw''
        · rw [hx'] at hw''
          unfold set_posLog writeOneByteW at hw''
          simp only [List.mem_cons, List.not_mem_nil, or_false] at hw''
          rcases hw'' with h | h | h <;> subst h
          · exact Or.inl ⟨r.y, rfl⟩
          · right; left; norm_num
          · right; right; left; norm_num
      · simp only [List.mem_singleton] at hw'
        subst hw'
        rcases hpl with h | h
        · right; right; right; right; exact h
        · right; right; right; left; exact h

/-- Claim C6 (corrected): the alignment start-column formulas (Left 0;
Centre round((26 − len)/2); Right 26 − len − 1 + line index) are applied
ONLY when the space-appended input is shorter than 25 characters — in
which case there is exactly one produced line, with index 0.  For any
longer (in particular any wrapped) input the code never evaluates the
alignment expressions: every line starts at column 0 regardless of the
requested alignment, so Right-aligned wrapped lines do not step right. -/
theorem show_alignment_start_columns (env : ℕ → ℤ) (s : DState) (input : List Char)
    (line : Option ℕ) (al : Option ShowAlign) (scr : Option ℕ)
    (hinit : s.initialised = 1) :
    ((input ++ [' ']).length < NUMBER_OF_CHAR_PER_LINE - 1 →
      («show» env s input line al scr).2.get? 1 =
        some (writeOneByteW (setScreenAddr scr)
          (0x00 ||| (alignFormula (resolveAlign al) (input ++ [' ']).length 0 * 5) % 16)) ∧
      («show» env s input line al scr).2.get? 2 =
        some (writeOneByteW (setScreenAddr scr)
          (0x10 ||| (alignFormula (resolveAlign al) (input ++ [' ']).length 0 * 5) >>> 4))) ∧
    (¬ (input ++ [' ']).length < NUMBER_OF_CHAR_PER_LINE - 1 →
      ∀ w ∈ («show» env s input line al scr).2,
        (∃ p, w.bytes = [0, 0xb0 ||| p]) ∨ w.bytes = [0, 0] ∨ w.bytes = [0, 0x10] ∨
          w.bytes.head? = some (0x40 : ℕ) ∨ w.bytes = []) := by
  constructor
  · intro hlt
    have hlines : showLines (input ++ [' ']) (resolveLine line) = [input ++ [' ']] := by
      unfold showLines
      rw [if_neg (by unfold NUMBER_OF_CHAR_PER_LINE at hlt ⊢; omega)]
    rw [show_log env s input line al scr hinit, hlines]
    rw [show List.enum [input ++ [' ']] = [(0, input ++ [' '])] from rfl]
    rw [List.foldl_cons, List.foldl_nil]
    obtain ⟨payload, hpl, hlog⟩ := renderLine_log_cases (input ++ [' ']).length
      (resolveAlign al) (setScreenAddr scr) 0
      ⟨s.screenBuf, 0, resolveLine line, 0, []⟩ (input ++ [' '])
    rw [hlog]
    have hx : (renderLine (input ++ [' ']).length (resolveAlign al) (setScreenAddr scr) 0
        ⟨s.screenBuf, 0, resolveLine line, 0, []⟩ (input ++ [' '])).x =
        alignFormula (resolveAlign al) (input ++ [' ']).length 0 := by
      rw [renderLine_x, if_pos hlt]
      cases resolveAlign al <;> rfl
    rw [hx]
    unfold set_posLog writeOneByteW alignFormula NUMBER_OF_CHAR_PER_LINE
    constructor <;> rfl
  · intro hge
    rw [show_log env s input line al scr hinit]
    exact (show_fold_cols_zero (input ++ [' ']).length (resolveAlign al)
      (setScreenAddr scr) hge _ ⟨s.screenBuf, 0, resolveLine line, 0, []⟩ rfl
      (by intro w hw; simp at hw)).2

/-- Witness for `show_alignment_start_columns`: the 2-character text
shown centred on line 1 of an initialised display. -/
theorem show_alignment_start_columns_witness :
    stInit.initialised = 1 ∧
      ((("HI".toList ++ [' ']).length < NUMBER_OF_CHAR_PER_LINE - 1 →
        («show» envOk stInit "HI".toList (some 1) (some ShowAlign.Centre) none).2.get? 1 =
          some (writeOneByteW (setScreenAddr none)
            (0x00 ||| (alignFormula (resolveAlign (some ShowAlign.Centre))
              ("HI".toList ++ [' ']).length 0 * 5) % 16)) ∧
        («show» envOk stInit "HI".toList (some 1) (some ShowAlign.Centre) none).2.get? 2 =
          some (writeOneByteW (setScreenAddr none)
            (0x10 ||| (alignFormula (resolveAlign (some ShowAlign.Centre))
              ("HI".toList ++ [' ']).length 0 * 5) >>> 4))) ∧
      (¬ ("HI".toList ++ [' ']).length < NUMBER_OF_CHAR_PER_LINE - 1 →
        ∀ w ∈ («show» envOk stInit "HI".toList (some 1) (some ShowAlign.Centre) none).2,
          (∃ p, w.bytes = [0, 0xb0 ||| p]) ∨ w.bytes = [0, 0] ∨ w.bytes = [0, 0x10] ∨
            w.bytes.head? = some (0x40 : ℕ) ∨ w.bytes = [])) :=
  ⟨rfl, show_alignment_start_columns envOk stInit "HI".toList (some 1)
    (some ShowAlign.Centre) none rfl⟩

/-- Counterexample to claim C7 as stated: the single bulk write of
`show("HELLO", 1, Left)` carries 31 bytes (the `0x40` marker plus 30
framebuffer bytes, columns 0 to 29 of page 0 — six 5-column glyph cells
including the appended trailing space), not the 26 bytes (marker plus
columns 0 to 24) that "covers exactly columns 0-24, excluding the
trailing space glyph" would give: `show` appends a space and the slice
sent runs through the last written glyph column 29. -/
theorem show_hello_cex :
    ((«show» envOk stInit "HELLO".toList (some 1) (some ShowAlign.Left) none).2.get? 3).map
        (fun w => w.bytes.length) = some 31 ∧ (31 : ℕ) ≠ 26 := by
  exact ⟨rfl, by decide⟩

/-- Claim C7 (corrected): from any initialised state,
`show("HELLO", 1, Left)` performs exactly one bulk bus write; it is
positioned at column 0 of page 0 and its payload is the `0x40` marker
followed by 30 framebuffer bytes, covering exactly columns 0 to 29 of
page 0 (six glyph cells of 5 columns: H, E, L, L, O and the appended
trailing space). -/
theorem show_hello_single_write (env : ℕ → ℤ) (s : DState) (hinit : s.initialised = 1) :
    dataWriteCount ((«show» env s "HELLO".toList (some 1) (some ShowAlign.Left) none).2) = 1 ∧
      («show» env s "HELLO".toList (some 1) (some ShowAlign.Left) none).2.get? 0 =
        some (writeOneByteW 60 (0xb0 ||| 0)) ∧
      («show» env s "HELLO".toList (some 1) (some ShowAlign.Left) none).2.get? 1 =
        some (writeOneByteW 60 (0x00 ||| 0)) ∧
      («show» env s "HELLO".toList (some 1) (some ShowAlign.Left) none).2.get? 2 =
        some (writeOneByteW 60 (0x10 ||| (0 >>> 4))) ∧
      (∃ w, («show» env s "HELLO".toList (some 1) (some ShowAlign.Left) none).2.get? 3 =
        some w ∧ w.addr = 60 ∧ w.bytes.length = 31 ∧ w.bytes.head? = some 0x40) ∧
      («show» env s "HELLO".toList (some 1) (some ShowAlign.Left) none).2.length = 4 := by
  rw [show_log env s "HELLO".toList (some 1) (some ShowAlign.Left) none hinit]
  exact ⟨rfl, rfl, rfl, rfl, ⟨_, rfl, rfl, rfl, rfl⟩, rfl⟩

/-- Witness for `show_hello_single_write`: the initial state. -/
theorem show_hello_single_write_witness :
    stInit.initialised = 1 ∧
      dataWriteCount ((«show» envOk stInit "HELLO".toList (some 1)
        (some ShowAlign.Left) none).2) = 1 ∧
      (∃ w, («show» envOk stInit "HELLO".toList (some 1)
          (some ShowAlign.Left) none).2.get? 3 =
        some w ∧ w.addr = 60 ∧ w.bytes.length = 31 ∧ w.bytes.head? = some 0x40) :=
  ⟨rfl, (show_hello_single_write envOk stInit rfl).1,
    (show_hello_single_write envOk stInit rfl).2.2.2.2.1⟩

/-- Witness for `plot_preserves_low_pages`: plotting 7 on the initial
state. -/
theorem plot_preserves_low_pages_witness :
    stInit.initialised = 1 ∧ stInit.graphYMin < stInit.graphYMax ∧
      ∀ i ≤ 256, (plot envOk stInit 7 none).1.screenBuf i = stInit.screenBuf i :=
  ⟨rfl, by decide,
    plot_preserves_low_pages envOk stInit 7 none rfl
      (by intro w hw; simp [stInit] at hw) (by decide)⟩

lemma not_pump_of_benign {w : BusWrite} (h : benign w) :
    w.bytes ≠ [0, 0x8D, 0x14] := by
  intro hc
  rcases h with ⟨b, hb⟩ | hh | he | hl
  · rw [hc] at hb
    exact absurd hb (by simp)
  · rw [hc] at hh
    exact absurd hh (by decide)
  · rw [hc] at he
    exact absurd he (by simp)
  · rw [hc] at hl
    exact absurd hl (by decide)

lemma set_posLog_benign (addr col page : ℕ) :
    ∀ w ∈ set_posLog addr col page, benign w := by
  intro w hw
  unfold set_posLog writeOneByteW at hw
  simp only [List.mem_cons, List.not_mem_nil, or_false] at hw
  rcases hw with h | h | h <;> subst h <;> exact Or.inl ⟨_, rfl⟩

lemma bufBytes_length (b : ℕ → ℕ) : (bufBytes b).length = 1025 := by
  unfold bufBytes
  rw [List.length_map, List.length_range]

lemma setPixel_benign (env : ℕ → ℤ) (s : DState) (x y : ℕ) (scr : Option ℕ)
    (hinit : s.initialised = 1) :
    (setPixel env s x y scr).1.initialised = 1 ∧
      ∀ w ∈ (setPixel env s x y scr).2, benign w := by
  unfold setPixel
  dsimp only
  rw [hinit, ensureInit_mk]
  dsimp only
  refine ⟨rfl, ?_⟩
  intro w hw
  rw [List.nil_append] at hw
  rcases List.mem_append.mp hw with h | h
  · exact set_posLog_benign _ _ _ w h
  · simp only [List.mem_singleton] at h
    subst h
    exact Or.inr (Or.inl rfl)

lemma clearPixel_benign (env : ℕ → ℤ) (s : DState) (x y : ℕ) (scr : Option ℕ)
    (hinit : s.initialised = 1) :
    (clearPixel env s x y scr).1.initialised = 1 ∧
      ∀ w ∈ (clearPixel env s x y scr).2, benign w := by
  unfold clearPixel
  dsimp only
  rw [hinit, ensureInit_mk]
  dsimp only
  refine ⟨rfl, ?_⟩
  intro w hw
  rw [List.nil_append] at hw
  rcases List.mem_append.mp hw with h | h
  · exact set_posLog_benign _ _ _ w h
  · simp only [List.mem_singleton] at h
    subst h
    exact Or.inr (Or.inl rfl)

lemma refresh_benign (env : ℕ → ℤ) (s : DState) (scr : Option ℕ)
    (hinit : s.initialised = 1) :
    (refresh env s scr).1.initialised = 1 ∧
      ∀ w ∈ (refresh env s scr).2, benign w := by
  unfold refresh
  dsimp only
  rw [hinit, ensureInit_mk]
  dsimp only
  refine ⟨rfl, ?_⟩
  intro w hw
  rw [List.nil_append] at hw
  rcases List.mem_append.mp hw with h | h
  · exact set_posLog_benign _ _ _ w h
  · simp only [List.mem_singleton] at h
    subst h
    exact Or.inr (Or.inr (Or.inr (bufBytes_length _)))

lemma clear_benign (env : ℕ → ℤ) (s : DState) (scr : Option ℕ)
    (hinit : s.initialised = 1) :
    (clear env s scr).1.initialised = 1 ∧
      ∀ w ∈ (clear env s scr).2, benign w := by
  unfold clear clearBody
  dsimp only
  rw [hinit, ensureInit_mk]
  dsimp only
  refine ⟨rfl, ?_⟩
  intro w hw
  rw [List.nil_append] at hw
  rcases List.mem_append.mp hw with h | h
  · exact set_posLog_benign _ _ _ w h
  · simp only [List.mem_singleton] at h
    subst h
    exact Or.inr (Or.inr (Or.inr (bufBytes_length _)))

lemma invert_benign (env : ℕ → ℤ) (s : DState) (b : Bool) (scr : Option ℕ)
    (hinit : s.initialised = 1) :
    (invert env s b scr).1.initialised = 1 ∧
      ∀ w ∈ (invert env s b scr).2, benign w := by
  unfold invert
  dsimp only
  rw [hinit, ensureInit_mk]
  dsimp only
  refine ⟨rfl, ?_⟩
  intro w hw
  rw [List.nil_append] at hw
  simp only [List.mem_singleton] at hw
  subst hw
  exact Or.inl ⟨_, rfl⟩

lemma onOff_benign (env : ℕ → ℤ) (s : DState) (b : Bool) (scr : Option ℕ)
    (hinit : s.initialised = 1) :
    (controlDisplayOnOff env s b scr).1.initialised = 1 ∧
      ∀ w ∈ (controlDisplayOnOff env s b scr).2, benign w := by
  unfold controlDisplayOnOff
  dsimp only
  rw [hinit, ensureInit_mk]
  dsimp only
  refine ⟨rfl, ?_⟩
  intro w hw
  rw [List.nil_append] at hw
  simp only [List.mem_singleton] at hw
  subst hw
  exact Or.inl ⟨_, rfl⟩

lemma show_benign (env : ℕ → ℤ) (s : DState) (input : List Char) (line : Option ℕ)
    (al : Option ShowAlign) (scr : Option ℕ) (hinit : s.initialised = 1) :
    ((«show» env s input line al scr).1.initialised = 1 ∧
      ∀ w ∈ («show» env s input line al scr).2, benign w) := by
  constructor
  · unfold «show»
    dsimp only
    rw [hinit, ensureInit_mk]
  · intro w hw
    rw [show_log env s input line al scr hinit] at hw
    refine show_fold_shape (input ++ [' ']).length (resolveAlign al)
      (setScreenAddr scr) benign (fun b => Or.inl ⟨b, rfl⟩) ?_ _ _ ?_ w hw
    · intro payload hpl
      rcases hpl with h | h
      · exact Or.inr (Or.inr (Or.inl h))
      · exact Or.inr (Or.inl h)
    · intro w' hw'
      simp at hw'

lemma clearLine_benign (env : ℕ → ℤ) (s : DState) (line : ℕ) (scr : Option ℕ)
    (hinit : s.initialised = 1) :
    (clearLine env s line scr).1.initialised = 1 ∧
      ∀ w ∈ (clearLine env s line scr).2, benign w := by
  unfold clearLine
  dsimp only
  rw [hinit, ensureInit_mk]
  dsimp only
  constructor
  · exact (show_benign env _ _ _ _ _ rfl).1
  · intro w hw
    rw [List.nil_append] at hw
    exact (show_benign env _ _ _ _ _ rfl).2 w hw

lemma drawLine_benign (env : ℕ → ℤ) (s : DState) (dir : LineDirectionSelection)
    (len x y : ℕ) (scr : Option ℕ) (hinit : s.initialised = 1) :
    (drawLine env s dir len x y scr).1.initialised = 1 ∧
      ∀ w ∈ (drawLine env s dir len x y scr).2, benign w := by
  cases dir with
  | horizontal =>
      unfold drawLine
      refine foldl_inv _
        (fun (sl : DState × Log) => sl.1.initialised = 1 ∧ ∀ w ∈ sl.2, benign w) _ _
        ⟨hinit, by intro w hw; simp at hw⟩ ?_
      intro sl a _ hP
      dsimp only
      obtain ⟨h1, h2⟩ := setPixel_benign env sl.1 a y scr hP.1
      refine ⟨h1, ?_⟩
      intro w hw
      rcases List.mem_append.mp hw with h | h
      · exact hP.2 w h
      · exact h2 w h
  | vertical =>
      unfold drawLine
      dsimp only
      refine foldl_inv _
        (fun (sl : DState × Log) => sl.1.initialised = 1 ∧ ∀ w ∈ sl.2, benign w) _ _
        ⟨hinit, by intro w hw; simp at hw⟩ ?_
      intro sl a _ hP
      dsimp only
      obtain ⟨h1, h2⟩ := setPixel_benign env sl.1 x a scr hP.1
      refine ⟨h1, ?_⟩
      intro w hw
      rcases List.mem_append.mp hw with h | h
      · exact hP.2 w h
      · exact h2 w h

lemma drawRect_benign (env : ℕ → ℤ) (s : DState) (width height x y : ℕ)
    (scr : Option ℕ) (hinit : s.initialised = 1) :
    (drawRect env s width height x y scr).1.initialised = 1 ∧
      ∀ w ∈ (drawRect env s width height x y scr).2, benign w := by
  unfold drawRect
  dsimp only
  obtain ⟨h1, g1⟩ := drawLine_benign env s LineDirectionSelection.horizontal
    width x y scr hinit
  obtain ⟨h2, g2⟩ := drawLine_benign env _ LineDirectionSelection.horizontal
    width x (y + height - 1) scr h1
  obtain ⟨h3, g3⟩ := drawLine_benign env _ LineDirectionSelection.vertical
    height x y scr h2
  obtain ⟨h4, g4⟩ := drawLine_benign env _ LineDirectionSelection.vertical
    height (x + width - 1) y scr h3
  refine ⟨h4, ?_⟩
  intro w hw
  rcases List.mem_append.mp hw with h | h
  · rcases List.mem_append.mp h with h' | h'
    · rcases List.mem_append.mp h' with h'' | h''
      · exact g1 w h''
      · exact g2 w h''
    · exact g3 w h'
  · exact g4 w h

lemma plot_benign (env : ℕ → ℤ) (s : DState) (v : ℚ) (scr : Option ℕ)
    (hinit : s.initialised = 1) :
    (plot env s v scr).1.initialised = 1 ∧
      ∀ w ∈ (plot env s v scr).2, benign w := by
  unfold plot
  dsimp only
  rw [hinit, ensureInit_mk]
  dsimp only
  constructor
  · exact (refresh_benign env _ none rfl).1
  · intro w hw
    rw [List.nil_append] at hw
    exact (refresh_benign env _ none rfl).2 w hw

/-- Counterexample to claim C9 as stated: `initDisplay` is itself a
public display call (an exported block) and contains no check of the
`initialised` flag, so calling it explicitly with screen 2 on an
already-initialised display re-runs the whole controller init sequence
at the second controller address 10; write 7 of its bus log is the
charge-pump enable command `[0, 0x8D, 0x14]` addressed to 10. -/
theorem init_once_cex :
    stInit.initialised = 1 ∧
      (runOp envOk stInit (DispOp.initDisp (some 2))).2.get? 7 =
        some ⟨10, [0, 0x8D, 0x14]⟩ :=
  ⟨rfl, rfl⟩

/-- Claim C9 (corrected): once the `initialised` flag is 1, every public
display call OTHER THAN an explicit `initDisplay` request leaves the
flag at 1 and issues no write of the init sequence — in particular never
the charge-pump enable frame `[0, 0x8D, 0x14]` — to any address,
regardless of the screen selector passed.  An explicit `initDisplay`
call has no flag guard and re-runs the sequence (see the
counterexample). -/
theorem init_once (env : ℕ → ℤ) (s : DState) (op : DispOp)
    (hinit : s.initialised = 1) (hop : op.isExplicitInit = false) :
    (runOp env s op).1.initialised = 1 ∧
      ∀ w ∈ (runOp env s op).2, w.bytes ≠ [0, 0x8D, 0x14] := by
  cases op with
  | initDisp scr => exact absurd hop (by simp [DispOp.isExplicitInit])
  | setPix x y scr =>
      obtain ⟨h1, h2⟩ := setPixel_benign env s x y scr hinit
      exact ⟨h1, fun w hw => not_pump_of_benign (h2 w hw)⟩
  | clearPix x y scr =>
      obtain ⟨h1, h2⟩ := clearPixel_benign env s x y scr hinit
      exact ⟨h1, fun w hw => not_pump_of_benign (h2 w hw)⟩
  | showOp input line al scr =>
      obtain ⟨h1, h2⟩ := show_benign env s input line al scr hinit
      exact ⟨h1, fun w hw => not_pump_of_benign (h2 w hw)⟩
  | clearLineOp line scr =>
      obtain ⟨h1, h2⟩ := clearLine_benign env s line scr hinit
      exact ⟨h1, fun w hw => not_pump_of_benign (h2 w hw)⟩
  | drawLineOp dir len x y scr =>
      obtain ⟨h1, h2⟩ := drawLine_benign env s dir len x y scr hinit
      exact ⟨h1, fun w hw => not_pump_of_benign (h2 w hw)⟩
  | drawRectOp w h x y scr =>
      obtain ⟨h1, h2⟩ := drawRect_benign env s w h x y scr hinit
      exact ⟨h1, fun w' hw' => not_pump_of_benign (h2 w' hw')⟩
  | clearOp scr =>
      obtain ⟨h1, h2⟩ := clear_benign env s scr hinit
      exact ⟨h1, fun w hw => not_pump_of_benign (h2 w hw)⟩
  | plotOp v scr =>
      obtain ⟨h1, h2⟩ := plot_benign env s v scr hinit
      exact ⟨h1, fun w hw => not_pump_of_benign (h2 w hw)⟩
  | refreshOp scr =>
      obtain ⟨h1, h2⟩ := refresh_benign env s scr hinit
      exact ⟨h1, fun w hw => not_pump_of_benign (h2 w hw)⟩
  | invertOp b scr =>
      obtain ⟨h1, h2⟩ := invert_benign env s b scr hinit
      exact ⟨h1, fun w hw => not_pump_of_benign (h2 w hw)⟩
  | onOffOp b scr =>
      obtain ⟨h1, h2⟩ := onOff_benign env s b scr hinit
      exact ⟨h1, fun w hw => not_pump_of_benign (h2 w hw)⟩

/-- Witness for `init_once`: inverting the display while selecting
screen 2, on an already-initialised state. -/
theorem init_once_witness :
    stInit.initialised = 1 ∧
      (DispOp.invertOp true (some 2)).isExplicitInit = false ∧
      ((runOp envOk stInit (DispOp.invertOp true (some 2))).1.initialised = 1 ∧
        ∀ w ∈ (runOp envOk stInit (DispOp.invertOp true (some 2))).2,
          w.bytes ≠ [0, 0x8D, 0x14]) :=
  ⟨rfl, rfl, init_once envOk stInit (DispOp.invertOp true (some 2)) rfl rfl⟩

end AirQuality
